import Mathlib

/-!
Verification of the car-parking genetic-algorithm repository.

This file gives a shallow embedding of the core of the repository
(`src/brain.py`, `src/genetic_algorithm.py`, `src/environment.py`) and
proves / refutes the frozen claims about it.

Modelling conventions:
* Python floats are modelled as exact rationals (`ℚ`); where the code can
  produce IEEE infinities we use the four-point extension `FVal`
  (finite / +inf / -inf / NaN) with IEEE-754 arithmetic rules.
* Python exceptions are modelled with `Except String`.
* The randomness consumed by the genetic algorithm is abstracted into an
  `Oracle` of per-call random draws; every theorem about `evolve`
  quantifies over all oracles, i.e. over all possible random outcomes.
* Calls into external libraries (`math.cos`, `math.sin`, `math.sqrt` and
  the bounding-box size of `pygame.transform.rotate`) are abstracted as
  the fields of an `Ext` record; theorems quantify over all of them.
-/

namespace Parking

/-! ## GeneCodec / Brain (`src/brain.py`) -/

/-- Exponent accumulation of `_binary_to_float`:
`sum(bit * (2 ** i) for i, bit in enumerate(reversed(exponent_bits)))`. -/
def exponentFold (l : List ℕ) : ℕ :=
  (l.reverse.enum).foldl (fun acc p => acc + p.2 * 2 ^ p.1) 0

/-- Mantissa accumulation of `_binary_to_float`:
`sum(bit * (2 ** -(i + 1)) for i, bit in enumerate(mantissa_bits))`. -/
def mantissaFold (l : List ℕ) : ℚ :=
  (l.enum).foldl (fun acc p => acc + (p.2 : ℚ) * (2 : ℚ) ^ (-(p.1 : ℤ) - 1)) 0

/-- Embeds `Brain._binary_to_float` (brain.py lines 29-52):
1 sign bit, 4 exponent bits (big-endian, bias 7), 5 mantissa bits with an
implicit leading 1; the result is clamped to `[-100, 100]`.
Raises (`.error`) exactly when the input is not 10 bits long. -/
def binary_to_float (bits : List ℕ) : Except String ℚ :=
  if bits.length ≠ 10 then .error "Expected 10 bits" else
    .ok (max (min ((if bits.getD 0 0 ≠ 0 then (-1 : ℚ) else 1) *
      (1 + mantissaFold (bits.drop 5)) *
      (2 : ℚ) ^ ((exponentFold ((bits.drop 1).take 4) : ℤ) - 7)) 100) (-100))

/-- Embeds `Brain._bits_to_coefficients` (brain.py lines 17-27): the input
is chunked into consecutive 10-bit groups (`bits[i:i+10]` for
`i = 0, 10, 20, ...`), each decoded by `binary_to_float`; a trailing chunk
shorter than 10 bits makes `binary_to_float` raise. -/
def bits_to_coefficients (bits : List ℕ) : Except String (List ℚ) :=
  if _h : bits.length = 0 then .ok [] else
    match binary_to_float (bits.take 10) with
    | .error e => .error e
    | .ok v =>
      match bits_to_coefficients (bits.drop 10) with
      | .error e => .error e
      | .ok rest => .ok (v :: rest)
termination_by bits.length
decreasing_by simp [List.length_drop]; omega

/-- Spec-side restatement of the claim formula for a single gene decode:
`clamp(sign * (1 + mantissa) * 2^(e-7), -100, 100)` with sign from bit 0,
`e` the unsigned big-endian value of bits 1-4 and mantissa
`Σ b[5+i] * 2^-(i+1)`. -/
def decodeSpecValue (b : List ℕ) : ℚ :=
  let sign : ℚ := if b.getD 0 0 = 1 then -1 else 1
  let e : ℕ := 8 * b.getD 1 0 + 4 * b.getD 2 0 + 2 * b.getD 3 0 + b.getD 4 0
  let m : ℚ := (b.getD 5 0 : ℚ) / 2 + (b.getD 6 0 : ℚ) / 4 + (b.getD 7 0 : ℚ) / 8
    + (b.getD 8 0 : ℚ) / 16 + (b.getD 9 0 : ℚ) / 32
  max (min (sign * (1 + m) * (2 : ℚ) ^ ((e : ℤ) - 7)) 100) (-100)

/-- Convenience error tester for the `Except`-valued decoders. -/
def isErr {α : Type} : Except String α → Bool
  | .error _ => true
  | .ok _ => false

theorem isErr_ok {α : Type} (a : α) : isErr (Except.ok (ε := String) a) = false := rfl

theorem list_len10 (b : List ℕ) (hb : b.length = 10) :
    ∃ b0 b1 b2 b3 b4 b5 b6 b7 b8 b9 : ℕ,
      b = [b0, b1, b2, b3, b4, b5, b6, b7, b8, b9] := by
  match b, hb with
  | [b0, b1, b2, b3, b4, b5, b6, b7, b8, b9], _ =>
    exact ⟨b0, b1, b2, b3, b4, b5, b6, b7, b8, b9, rfl⟩

theorem exponentFold_eq (b1 b2 b3 b4 : ℕ) :
    exponentFold [b1, b2, b3, b4] = 8 * b1 + 4 * b2 + 2 * b3 + b4 := by
  simp [exponentFold, List.enum, List.enumFrom]
  ring

theorem mantissaFold_eq (b5 b6 b7 b8 b9 : ℕ) :
    mantissaFold [b5, b6, b7, b8, b9] =
      (b5 : ℚ) / 2 + (b6 : ℚ) / 4 + (b7 : ℚ) / 8 + (b8 : ℚ) / 16 + (b9 : ℚ) / 32 := by
  simp [mantissaFold, List.enum, List.enumFrom]
  norm_num [zpow_neg]
  ring

theorem binary_to_float_eq_spec (b : List ℕ) (hb : b.length = 10)
    (hbit : ∀ x ∈ b, x ≤ 1) :
    binary_to_float b = .ok (decodeSpecValue b) := by
  obtain ⟨b0, b1, b2, b3, b4, b5, b6, b7, b8, b9, rfl⟩ := list_len10 b hb
  have h0 : b0 = 0 ∨ b0 = 1 := by
    have := hbit b0 (by simp); omega
  rw [binary_to_float, if_neg (by simp)]
  have hd5 : List.drop 5 [b0, b1, b2, b3, b4, b5, b6, b7, b8, b9] = [b5, b6, b7, b8, b9] := rfl
  have hd1 : List.take 4 (List.drop 1 [b0, b1, b2, b3, b4, b5, b6, b7, b8, b9])
      = [b1, b2, b3, b4] := rfl
  rw [hd5, hd1, exponentFold_eq, mantissaFold_eq, decodeSpecValue]
  have hexp : ((8 * b1 + 4 * b2 + 2 * b3 + b4 : ℕ) : ℤ) - 7
      = ((8 * (List.getD [b0, b1, b2, b3, b4, b5, b6, b7, b8, b9] 1 0)
        + 4 * (List.getD [b0, b1, b2, b3, b4, b5, b6, b7, b8, b9] 2 0)
        + 2 * (List.getD [b0, b1, b2, b3, b4, b5, b6, b7, b8, b9] 3 0)
        + List.getD [b0, b1, b2, b3, b4, b5, b6, b7, b8, b9] 4 0 : ℕ) : ℤ) - 7 := rfl
  rcases h0 with rfl | rfl <;> simp_all

theorem clamp100_bounds (x : ℚ) :
    -100 ≤ max (min x 100) (-100) ∧ max (min x 100) (-100) ≤ 100 :=
  ⟨le_max_right _ _, max_le (le_trans (min_le_right _ _) (by norm_num)) (by norm_num)⟩

/-- C4: for every 10-element binary sequence, `_binary_to_float` returns
`clamp(sign * (1 + mantissa) * 2^(e - 7), -100, 100)` with sign from bit 0,
`e` the big-endian value of bits 1-4 and mantissa `Σ b[5+i] * 2^-(i+1)`,
so the result always lies in the closed interval `[-100, 100]`
(saturating, not wrapping). -/
theorem binary_to_float_clamped_spec (b : List ℕ) (hb : b.length = 10)
    (hbit : ∀ x ∈ b, x ≤ 1) :
    binary_to_float b = .ok (decodeSpecValue b) ∧
    -100 ≤ decodeSpecValue b ∧ decodeSpecValue b ≤ 100 := by
  refine ⟨binary_to_float_eq_spec b hb hbit, ?_⟩
  simp only [decodeSpecValue]
  exact clamp100_bounds _

/-- Witness for C4 at the all-zeros and all-ones boundary inputs:
all-zeros decodes to `+1 * (1 + 0) * 2^-7 = 1/128` (no clamping) and
all-ones saturates at `-100`. -/
theorem binary_to_float_clamped_spec_witness :
    binary_to_float [0, 0, 0, 0, 0, 0, 0, 0, 0, 0] = .ok (1 / 128) ∧
    binary_to_float [1, 1, 1, 1, 1, 1, 1, 1, 1, 1] = .ok (-100) := by
  have h1 := binary_to_float_clamped_spec [0, 0, 0, 0, 0, 0, 0, 0, 0, 0]
    (by decide) (by decide)
  have h2 := binary_to_float_clamped_spec [1, 1, 1, 1, 1, 1, 1, 1, 1, 1]
    (by decide) (by decide)
  have e1 : decodeSpecValue [0, 0, 0, 0, 0, 0, 0, 0, 0, 0] = 1 / 128 := by
    norm_num [decodeSpecValue, min_def, max_def]
  have e2 : decodeSpecValue [1, 1, 1, 1, 1, 1, 1, 1, 1, 1] = -100 := by
    norm_num [decodeSpecValue, min_def, max_def]
  exact ⟨e1 ▸ h1.1, e2 ▸ h2.1⟩

theorem binary_to_float_ok_of_len (b : List ℕ) (hb : b.length = 10) :
    ∃ v, binary_to_float b = .ok v := by
  rw [binary_to_float, if_neg (by omega)]
  exact ⟨_, rfl⟩

theorem binary_to_float_isErr_iff (b : List ℕ) :
    isErr (binary_to_float b) = true ↔ b.length ≠ 10 := by
  rw [binary_to_float]
  split <;> simp_all [isErr]

theorem bits_to_coefficients_ok_aux :
    ∀ (n : ℕ) (b : List ℕ), b.length = n → n % 10 = 0 →
      ∃ cs, bits_to_coefficients b = .ok cs ∧ cs.length = n / 10 := by
  intro n
  induction n using Nat.strong_induction_on with
  | _ n ih =>
    intro b hn h
    rw [bits_to_coefficients]
    split
    · next h0 =>
      have hn0 : n = 0 := by omega
      exact ⟨[], rfl, by simp [hn0]⟩
    · next h0 =>
      have hlen : 10 ≤ n := by omega
      obtain ⟨v, hv⟩ := binary_to_float_ok_of_len (b.take 10)
        (by rw [List.length_take]; omega)
      have hdl : (b.drop 10).length = n - 10 := by
        rw [List.length_drop]; omega
      obtain ⟨cs, hcs, hcl⟩ := ih (n - 10) (by omega) (b.drop 10) hdl (by omega)
      rw [hv, hcs]
      exact ⟨v :: cs, rfl, by simp [hcl]; omega⟩

theorem bits_to_coefficients_ok (b : List ℕ) (h : b.length % 10 = 0) :
    ∃ cs, bits_to_coefficients b = .ok cs ∧ cs.length = b.length / 10 :=
  bits_to_coefficients_ok_aux b.length b rfl h

theorem bits_to_coefficients_isErr_aux :
    ∀ (n : ℕ) (b : List ℕ), b.length = n →
      (isErr (bits_to_coefficients b) = true ↔ n % 10 ≠ 0) := by
  intro n
  induction n using Nat.strong_induction_on with
  | _ n ih =>
    intro b hn
    rw [bits_to_coefficients]
    split
    · next h0 => simp [isErr]; omega
    · next h0 =>
      by_cases hlen : n < 10
      · have htake : b.take 10 = b := List.take_of_length_le (by omega)
        have herr : isErr (binary_to_float (b.take 10)) = true := by
          rw [binary_to_float_isErr_iff, htake]; omega
        rw [binary_to_float] at herr ⊢
        split at herr
        · split <;> simp_all [isErr] <;> omega
        · simp [isErr] at herr
      · obtain ⟨v, hv⟩ := binary_to_float_ok_of_len (b.take 10)
          (by rw [List.length_take]; omega)
        have hdl : (b.drop 10).length = n - 10 := by
          rw [List.length_drop]; omega
        have hrec := ih (n - 10) (by omega) (b.drop 10) hdl
        rw [hv]
        cases hc : bits_to_coefficients (b.drop 10) with
        | error e =>
          rw [hc] at hrec
          simp [isErr] at hrec ⊢
          omega
        | ok cs =>
          rw [hc] at hrec
          simp [isErr] at hrec ⊢
          omega

theorem bits_to_coefficients_isErr_iff (b : List ℕ) :
    isErr (bits_to_coefficients b) = true ↔ b.length % 10 ≠ 0 :=
  bits_to_coefficients_isErr_aux b.length b rfl

/-- C5 (amended): the single-coefficient decode fails with a length error
iff its input is not exactly 10 bits; but the vector form fails iff its
input length is not a multiple of 10 (any multiple-of-10 input, 90 bits
or not, succeeds and yields one coefficient per 10-bit chunk). -/
theorem decode_length_errors :
    (∀ b : List ℕ, isErr (binary_to_float b) = true ↔ b.length ≠ 10) ∧
    (∀ b : List ℕ, isErr (bits_to_coefficients b) = true ↔ b.length % 10 ≠ 0) :=
  ⟨binary_to_float_isErr_iff, bits_to_coefficients_isErr_iff⟩

/-- C5 counterexample: a 20-bit all-zero input is not 90 bits long, yet
`_bits_to_coefficients` succeeds on it, refuting "fails with a length
error if and only if its input is not exactly 90 bits". -/
theorem decode_vector_length_counterexample :
    ¬ (isErr (bits_to_coefficients (List.replicate 20 0)) = true ↔
        (List.replicate 20 (0 : ℕ)).length ≠ 90) := by
  obtain ⟨cs, hcs, _⟩ := bits_to_coefficients_ok (List.replicate 20 0) (by decide)
  rw [hcs]
  simp [isErr]

/-- The decoded controller: 9 engine coefficients (8 weights + bias) and 9
steering coefficients, as produced by `Brain.__init__`. -/
structure Brain where
  engine_coefficients : List ℚ
  wheel_coefficients : List ℚ

/-- Embeds `Brain.__init__` (brain.py lines 5-15): requires a 180-bit
genome, decodes the two 90-bit halves into coefficient vectors. -/
def mkBrain (genome : List ℕ) : Except String Brain :=
  if genome.length ≠ 180 then .error "Genome must be 180 bits long" else
    match bits_to_coefficients (genome.take 90) with
    | .error e => .error e
    | .ok ec =>
      match bits_to_coefficients (genome.drop 90) with
      | .error e => .error e
      | .ok wc => .ok ⟨ec, wc⟩

/-- `sum(c * s for c, s in zip(cs, ss))`. -/
def dotZip (cs ss : List ℚ) : ℚ :=
  ((cs.zip ss).map fun p => p.1 * p.2).sum

/-- Logistic squashing function `1 / (1 + math.exp(-signal))` used by
`Brain._signal_to_action`. -/
noncomputable def sigmoid (s : ℚ) : ℝ :=
  1 / (1 + Real.exp (-(s : ℝ)))

/-- Embeds `Brain._signal_to_action` (brain.py lines 81-99): the signal is
clamped to `[-500, 500]` before the logistic function; the squashed value
is thresholded at 0.33 and 0.66.  (Over the reals the exponential never
overflows, so the `except OverflowError` saturation branch of the source
is unreachable and not modelled.) -/
noncomputable def signal_to_action (signal : ℚ) : ℤ :=
  let clamped := max (min signal 500) (-500)
  let normalized := sigmoid clamped
  if normalized < 33 / 100 then -1
  else if normalized > 66 / 100 then 1
  else 0

/-- Embeds `Brain.make_decision` (brain.py lines 54-79): checks for 8
sensor values, clamps them to `[0, 100]`, forms the two affine signals
from the first 8 coefficients plus the bias (`coefficients[-1]`), clamps
the signals to `[-100, 100]` and thresholds them into the
`(engine, wheels)` action pair. -/
noncomputable def make_decision (b : Brain) (sensors : List ℚ) : Except String (ℤ × ℤ) :=
  if sensors.length ≠ 8 then .error "Expected 8 sensor values" else
    let clamped := sensors.map fun s => max (min s 100) 0
    let engine_signal := dotZip b.engine_coefficients.dropLast clamped
      + b.engine_coefficients.getLastD 0
    let wheel_signal := dotZip b.wheel_coefficients.dropLast clamped
      + b.wheel_coefficients.getLastD 0
    let engine_signal := max (min engine_signal 100) (-100)
    let wheel_signal := max (min wheel_signal 100) (-100)
    .ok (signal_to_action engine_signal, signal_to_action wheel_signal)

/-- Spec-side channel signal of claim C6:
`Σ (weight_i * sensor_i for i in 0..7) + bias`, the sensors clamped to
`[0, 100]`, using the channel's 9 decoded coefficients (bias = index 8). -/
def specSignal (cs sensors : List ℚ) : ℚ :=
  (∑ i ∈ Finset.range 8, cs.getD i 0 * max (min (sensors.getD i 0) 100) 0)
    + cs.getD 8 0

theorem list_len9 (b : List ℚ) (hb : b.length = 9) :
    ∃ c0 c1 c2 c3 c4 c5 c6 c7 c8 : ℚ,
      b = [c0, c1, c2, c3, c4, c5, c6, c7, c8] := by
  match b, hb with
  | [c0, c1, c2, c3, c4, c5, c6, c7, c8], _ =>
    exact ⟨c0, c1, c2, c3, c4, c5, c6, c7, c8, rfl⟩

theorem list_len8 (b : List ℚ) (hb : b.length = 8) :
    ∃ s0 s1 s2 s3 s4 s5 s6 s7 : ℚ,
      b = [s0, s1, s2, s3, s4, s5, s6, s7] := by
  match b, hb with
  | [s0, s1, s2, s3, s4, s5, s6, s7], _ =>
    exact ⟨s0, s1, s2, s3, s4, s5, s6, s7, rfl⟩

theorem dotZip_eq_specSignal (cs ss : List ℚ) (hc : cs.length = 9)
    (hs : ss.length = 8) :
    dotZip cs.dropLast (ss.map fun s => max (min s 100) 0) + cs.getLastD 0 =
      specSignal cs ss := by
  obtain ⟨c0, c1, c2, c3, c4, c5, c6, c7, c8, rfl⟩ := list_len9 cs hc
  obtain ⟨s0, s1, s2, s3, s4, s5, s6, s7, rfl⟩ := list_len8 ss hs
  simp [dotZip, specSignal, Finset.sum_range_succ]
  ring

theorem signal_to_action_cases (q : ℚ) :
    (sigmoid (max (min q 500) (-500)) < 33 / 100 → signal_to_action q = -1) ∧
    (sigmoid (max (min q 500) (-500)) > 66 / 100 → signal_to_action q = 1) ∧
    (33 / 100 ≤ sigmoid (max (min q 500) (-500)) →
      sigmoid (max (min q 500) (-500)) ≤ 66 / 100 → signal_to_action q = 0) := by
  simp only [signal_to_action]
  refine ⟨fun h => if_pos h, fun h => ?_, fun h1 h2 => ?_⟩
  · rw [if_neg (by linarith), if_pos h]
  · rw [if_neg (by linarith), if_neg (by simp; linarith)]

/-- C6: for every valid 180-bit genome and 8-element sensor vector, the
decoded controller has 9 coefficients per channel and `make_decision`
computes, per channel, the clamped affine signal
`Σ (weight_i * clamp(sensor_i, 0, 100)) + bias` clamped to `[-100, 100]`,
squashes it through the logistic function (signal further clamped to
`[-500, 500]`) and thresholds the squashed value at 0.33 / 0.66 into the
discrete action `-1 / 0 / +1`.  The embedding is purely functional, so
neither the controller nor the genome is mutated. -/
theorem make_decision_spec (genome : List ℕ) (sensors : List ℚ)
    (hg : genome.length = 180) (hs : sensors.length = 8) :
    ∃ br : Brain, mkBrain genome = .ok br ∧
      br.engine_coefficients.length = 9 ∧ br.wheel_coefficients.length = 9 ∧
      make_decision br sensors =
        .ok (signal_to_action (max (min (specSignal br.engine_coefficients sensors) 100) (-100)),
          signal_to_action (max (min (specSignal br.wheel_coefficients sensors) 100) (-100))) ∧
      ∀ q : ℚ,
        (sigmoid (max (min q 500) (-500)) < 33 / 100 → signal_to_action q = -1) ∧
        (sigmoid (max (min q 500) (-500)) > 66 / 100 → signal_to_action q = 1) ∧
        (33 / 100 ≤ sigmoid (max (min q 500) (-500)) →
          sigmoid (max (min q 500) (-500)) ≤ 66 / 100 → signal_to_action q = 0) := by
  obtain ⟨ec, hec, hecl⟩ := bits_to_coefficients_ok (genome.take 90)
    (by rw [List.length_take]; omega)
  obtain ⟨wc, hwc, hwcl⟩ := bits_to_coefficients_ok (genome.drop 90)
    (by rw [List.length_drop]; omega)
  have hecl9 : ec.length = 9 := by
    rw [hecl, List.length_take]; omega
  have hwcl9 : wc.length = 9 := by
    rw [hwcl, List.length_drop]; omega
  refine ⟨⟨ec, wc⟩, ?_, hecl9, hwcl9, ?_, signal_to_action_cases⟩
  · rw [mkBrain, if_neg (by omega), hec, hwc]
  · rw [make_decision, if_neg (by omega)]
    simp only []
    rw [dotZip_eq_specSignal ec sensors hecl9 hs,
      dotZip_eq_specSignal wc sensors hwcl9 hs]

/-- Witness for C6 at the all-zero 180-bit genome with all-zero sensors. -/
theorem make_decision_spec_witness :
    ∃ br : Brain, mkBrain (List.replicate 180 0) = .ok br ∧
      make_decision br (List.replicate 8 0) =
        .ok (signal_to_action
            (max (min (specSignal br.engine_coefficients (List.replicate 8 0)) 100) (-100)),
          signal_to_action
            (max (min (specSignal br.wheel_coefficients (List.replicate 8 0)) 100) (-100))) := by
  obtain ⟨br, h1, -, -, h4, -⟩ := make_decision_spec (List.replicate 180 0)
    (List.replicate 8 0) (by rw [List.length_replicate]) (by rw [List.length_replicate])
  exact ⟨br, h1, h4⟩

/-! ## Evolution Engine (`src/genetic_algorithm.py`)

The random draws consumed by one `evolve` call are abstracted into an
`Oracle`: per fill-loop iteration `k` it records the tournament samples of
the two `_select_parent` calls, the two crossover points and the mutation
coin flips of the two `_mutate` calls.  Every theorem below quantifies
over all oracles, i.e. over every possible sequence of random outcomes. -/

/-- The coin flips of one `_mutate` call: `flip i` is the event
`random.random() < mutation_rate` at position `i`, and `prevFlip i` /
`nextFlip i` are the 0.3-probability neighbour-flip events fired after a
primary flip at `i`. -/
structure MutRand where
  flip : ℕ → Bool
  prevFlip : ℕ → Bool
  nextFlip : ℕ → Bool

/-- The random draws of one `evolve` call, indexed by fill-loop iteration. -/
structure Oracle where
  sample1 : ℕ → List ℕ
  sample2 : ℕ → List ℕ
  points : ℕ → ℕ × ℕ
  mut1 : ℕ → MutRand
  mut2 : ℕ → MutRand

/-- `min(fitness_scores)` (Python `min` of a nonempty list). -/
def pyMin (l : List ℚ) : ℚ := l.min?.getD 0

/-- `max(fitness_scores)` (Python `max` of a nonempty list). -/
def pyMax (l : List ℚ) : ℚ := l.max?.getD 0

/-- Python `max(pairs, key=lambda x: x[1])`: the first pair with maximal
second component (later pairs replace the current maximum only when
strictly greater). -/
def pyMaxBySnd (x : ℕ × ℚ) (xs : List (ℕ × ℚ)) : ℕ × ℚ :=
  xs.foldl (fun acc y => if y.2 > acc.2 then y else acc) x

/-- Embeds `GeneticAlgorithm._select_parent` (genetic_algorithm.py lines
34-38) with the tournament sample drawn by the oracle: the sampled indices
are paired with their fitness, the winner is the first index of maximal
fitness, and the corresponding population member is returned. -/
def select_parent (pop : List (List ℕ)) (fitness : List ℚ) (sample : List ℕ) :
    List ℕ :=
  match sample with
  | [] => []
  | s :: ss =>
    pop.getD (pyMaxBySnd (s, fitness.getD s 0)
      (ss.map fun i => (i, fitness.getD i 0))).1 []

/-- Embeds `GeneticAlgorithm._crossover` (genetic_algorithm.py lines
40-55): raises when the parents differ in length, otherwise splices the
parents at the two sorted crossover points. -/
def crossover (p1 p2 : List ℕ) (pts : ℕ × ℕ) :
    Except String (List ℕ × List ℕ) :=
  if p1.length ≠ p2.length then .error "Parents must have same length" else
    .ok (p1.take (min pts.1 pts.2) ++
      ((p2.drop (min pts.1 pts.2)).take (max pts.1 pts.2 - min pts.1 pts.2)) ++
      p1.drop (max pts.1 pts.2),
      p2.take (min pts.1 pts.2) ++
      ((p1.drop (min pts.1 pts.2)).take (max pts.1 pts.2 - min pts.1 pts.2)) ++
      p2.drop (max pts.1 pts.2))

/-- One iteration of the `_mutate` loop body at position `i`: on a primary
flip, invert bit `i`, then possibly invert bit `i-1` (if `i > 0`) and bit
`i+1` (if `i < len - 1`). -/
def mutateStep (r : MutRand) (g : List ℕ) (i : ℕ) : List ℕ :=
  if r.flip i then
    let g := g.set i (1 - g.getD i 0)
    let g := if 0 < i ∧ r.prevFlip i then g.set (i - 1) (1 - g.getD (i - 1) 0) else g
    if i < g.length - 1 ∧ r.nextFlip i then g.set (i + 1) (1 - g.getD (i + 1) 0) else g
  else g

/-- Embeds `GeneticAlgorithm._mutate` (genetic_algorithm.py lines 57-68):
the loop `for i in range(len(mutated))` over `mutateStep`. -/
def mutate (r : MutRand) (g : List ℕ) : List ℕ :=
  (List.range g.length).foldl (mutateStep r) g

/-- Stable descending insertion used to model Python's stable
`sorted(range(n), key=lambda i: fitness[i], reverse=True)`: index `i` is
inserted after every already-placed index of fitness `≥ fitness[i]`. -/
def insertIdx (f : List ℚ) (i : ℕ) : List ℕ → List ℕ
  | [] => [i]
  | j :: r => if f.getD j 0 ≥ f.getD i 0 then j :: insertIdx f i r else i :: j :: r

/-- The elite ordering of `evolve`: the indices `0, ..., len(fitness)-1`
sorted by fitness, descending, ties broken by lower index (Python's
stable sort with `reverse=True`). -/
def rankDesc (f : List ℚ) : List ℕ :=
  (List.range f.length).foldl (fun acc i => insertIdx f i acc) []

/-- The fitness normalization step of `evolve` (genetic_algorithm.py lines
72-79): min-max normalization, or the equal share `1/len(fitness)` for all
members when every score is equal. -/
def normalize_fitness (fitness : List ℚ) : List ℚ :=
  if pyMax fitness ≠ pyMin fitness then
    fitness.map fun f => (f - pyMin fitness) / (pyMax fitness - pyMin fitness)
  else
    List.replicate fitness.length (1 / (fitness.length : ℚ))

/-- The guarded append `if len(new_population) < self.population_size:
new_population.append(child)` of the fill loop. -/
def appendIf (ps : ℕ) (acc : List (List ℕ)) (g : List ℕ) : List (List ℕ) :=
  if acc.length < ps then acc ++ [g] else acc

theorem appendIf_length_ge (ps : ℕ) (acc : List (List ℕ)) (g : List ℕ) :
    acc.length ≤ (appendIf ps acc g).length := by
  rw [appendIf]; split <;> simp

theorem appendIf_length_of_lt (ps : ℕ) (acc : List (List ℕ)) (g : List ℕ)
    (h : acc.length < ps) : (appendIf ps acc g).length = acc.length + 1 := by
  rw [appendIf, if_pos h]; simp

theorem appendIf_progress (ps : ℕ) (acc : List (List ℕ)) (x y : List ℕ)
    (h : acc.length < ps) :
    ps - (appendIf ps (appendIf ps acc x) y).length < ps - acc.length := by
  have h1 := appendIf_length_of_lt ps acc x h
  have h2 := appendIf_length_ge ps (appendIf ps acc x) y
  omega

/-- The `while len(new_population) < self.population_size` fill loop of
`evolve` (genetic_algorithm.py lines 92-106): select two parents by
tournament, cross them over, mutate, and append one or two children.
(The loop guard re-checks before each append; mutation of the second
child matters only when it is appended, so hoisting it into `appendIf`
is observationally identical to the source.) -/
def fill_children (ps : ℕ) (pop : List (List ℕ)) (nf : List ℚ) (o : Oracle)
    (k : ℕ) (acc : List (List ℕ)) : Except String (List (List ℕ)) :=
  if h : acc.length < ps then
    match crossover (select_parent pop nf (o.sample1 k))
        (select_parent pop nf (o.sample2 k)) (o.points k) with
    | .error e => .error e
    | .ok (c1, c2) =>
      fill_children ps pop nf o (k + 1)
        (appendIf ps (appendIf ps acc (mutate (o.mut1 k) c1)) (mutate (o.mut2 k) c2))
  else .ok acc
termination_by ps - acc.length
decreasing_by exact appendIf_progress ps acc _ _ h

/-- Embeds `GeneticAlgorithm.evolve` (genetic_algorithm.py lines 70-112):
normalize the fitness scores, copy the `elite_size` best genomes (by raw
fitness, stable descending order) unchanged, fill the rest of the new
population with mutated crossover children of tournament-selected
parents, and return the new population with the incremented generation
counter. -/
def evolve (population_size elite_size : ℕ) (pop : List (List ℕ))
    (generation : ℕ) (fitness : List ℚ) (o : Oracle) :
    Except String (List (List ℕ) × ℕ) :=
  match fill_children population_size pop (normalize_fitness fitness) o 0
      (((rankDesc fitness).take elite_size).map fun idx => pop.getD idx []) with
  | .error e => .error e
  | .ok p => .ok (p, generation + 1)

/-- Strict priority order on population indices used to state elitism:
`i` precedes `j` when `i` has strictly higher fitness, or equal fitness
and lower index. -/
def keyLT (f : List ℚ) (i j : ℕ) : Prop :=
  f.getD j 0 < f.getD i 0 ∨ (f.getD i 0 = f.getD j 0 ∧ i < j)

theorem insertIdx_perm (f : List ℚ) (i : ℕ) (l : List ℕ) :
    (insertIdx f i l).Perm (i :: l) := by
  induction l with
  | nil => exact List.Perm.refl _
  | cons j r ih =>
    rw [insertIdx]
    split
    · exact (ih.cons j).trans (List.Perm.swap i j r)
    · exact List.Perm.refl _

theorem insertIdx_pairwise (f : List ℚ) (i : ℕ) (l : List ℕ)
    (hp : l.Pairwise (keyLT f)) (hlt : ∀ j ∈ l, j < i) :
    (insertIdx f i l).Pairwise (keyLT f) := by
  induction l with
  | nil => simp [insertIdx]
  | cons j r ih =>
    rw [insertIdx]
    rcases List.pairwise_cons.mp hp with ⟨hj, hr⟩
    split
    · next hge =>
      refine List.pairwise_cons.mpr
        ⟨?_, ih hr fun x hx => hlt x (List.mem_cons_of_mem j hx)⟩
      intro x hx
      have hx2 := (insertIdx_perm f i r).mem_iff.mp hx
      rcases List.mem_cons.mp hx2 with rfl | hxr
      · rcases lt_or_eq_of_le hge with hgt | heq
        · exact Or.inl hgt
        · exact Or.inr ⟨heq.symm, hlt j (List.mem_cons_self j r)⟩
      · exact hj x hxr
    · next hge =>
      push_neg at hge
      refine List.pairwise_cons.mpr ⟨?_, hp⟩
      intro x hx
      rcases List.mem_cons.mp hx with rfl | hxr
      · exact Or.inl hge
      · rcases hj x hxr with hlt2 | ⟨heq, _⟩
        · exact Or.inl (hlt2.trans hge)
        · exact Or.inl (heq ▸ hge)

theorem rank_fold_perm (f : List ℚ) :
    ∀ (l : List ℕ) (acc : List ℕ),
      (l.foldl (fun a i => insertIdx f i a) acc).Perm (acc ++ l) := by
  intro l
  induction l with
  | nil => intro acc; simp
  | cons i r ih =>
    intro acc
    have h1 : (insertIdx f i acc ++ r).Perm (acc ++ i :: r) := by
      refine ((insertIdx_perm f i acc).append_right r).trans ?_
      exact (List.perm_middle).symm
    exact (ih (insertIdx f i acc)).trans h1

theorem rank_fold_pairwise (f : List ℚ) :
    ∀ (l : List ℕ) (acc : List ℕ), acc.Pairwise (keyLT f) →
      (∀ j ∈ acc, ∀ i ∈ l, j < i) → l.Pairwise (· < ·) →
      (l.foldl (fun a i => insertIdx f i a) acc).Pairwise (keyLT f) := by
  intro l
  induction l with
  | nil => intro acc hacc _ _; exact hacc
  | cons i r ih =>
    intro acc hacc hord hl
    rcases List.pairwise_cons.mp hl with ⟨hi, hr⟩
    refine ih (insertIdx f i acc) ?_ ?_ hr
    · exact insertIdx_pairwise f i acc hacc
        fun j hj => hord j hj i (List.mem_cons_self i r)
    · intro j hj x hx
      rcases List.mem_cons.mp ((insertIdx_perm f i acc).mem_iff.mp hj) with rfl | hja
      · exact hi x hx
      · exact hord j hja x (List.mem_cons_of_mem i hx)

theorem rankDesc_perm (f : List ℚ) :
    (rankDesc f).Perm (List.range f.length) := by
  simpa using rank_fold_perm f (List.range f.length) []

theorem rankDesc_pairwise (f : List ℚ) :
    (rankDesc f).Pairwise (keyLT f) := by
  refine rank_fold_pairwise f (List.range f.length) [] (by simp) (by simp) ?_
  exact List.pairwise_lt_range f.length

theorem rankDesc_length (f : List ℚ) : (rankDesc f).length = f.length := by
  simpa using (rankDesc_perm f).length_eq

theorem pyMaxBySnd_mem (x : ℕ × ℚ) (xs : List (ℕ × ℚ)) :
    pyMaxBySnd x xs ∈ x :: xs := by
  induction xs generalizing x with
  | nil => simp [pyMaxBySnd]
  | cons y ys ih =>
    rw [pyMaxBySnd, List.foldl_cons]
    have h := ih (if y.2 > x.2 then y else x)
    rcases List.mem_cons.mp h with heq | hmem
    · rw [pyMaxBySnd] at heq
      rw [heq]
      split <;> simp
    · exact List.mem_cons_of_mem x (List.mem_cons_of_mem y hmem)

theorem getD_mem_of_lt {α : Type} (l : List α) (i : ℕ) (d : α)
    (h : i < l.length) : l.getD i d ∈ l := by
  rw [List.getD_eq_getElem l d h]
  exact List.getElem_mem h

theorem select_parent_mem (pop : List (List ℕ)) (fitness : List ℚ)
    (sample : List ℕ) (hne : sample ≠ [])
    (hlt : ∀ i ∈ sample, i < pop.length) :
    select_parent pop fitness sample ∈ pop := by
  cases sample with
  | nil => exact absurd rfl hne
  | cons s ss =>
    rw [select_parent]
    have hm := pyMaxBySnd_mem (s, fitness.getD s 0)
      (ss.map fun i => (i, fitness.getD i 0))
    have hidx : (pyMaxBySnd (s, fitness.getD s 0)
        (ss.map fun i => (i, fitness.getD i 0))).1 ∈ s :: ss := by
      rcases List.mem_cons.mp hm with heq | hmem
      · rw [heq]
        exact List.mem_cons_self s ss
      · obtain ⟨i, hi, hieq⟩ := List.mem_map.mp hmem
        rw [← hieq]
        exact List.mem_cons_of_mem s hi
    exact getD_mem_of_lt pop _ [] (hlt _ hidx)

/-- Well-formedness of the oracle's tournament samples for a population of
`n` members and tournament size `tsize`: what `random.sample(range(n),
tsize)` guarantees. -/
def OracleOk (o : Oracle) (n tsize : ℕ) : Prop :=
  ∀ k, (o.sample1 k).length = tsize ∧ (o.sample1 k).Nodup ∧
    (∀ i ∈ o.sample1 k, i < n) ∧
    (o.sample2 k).length = tsize ∧ (o.sample2 k).Nodup ∧
    (∀ i ∈ o.sample2 k, i < n)

theorem appendIf_length_le (ps : ℕ) (acc : List (List ℕ)) (g : List ℕ)
    (h : acc.length ≤ ps) : (appendIf ps acc g).length ≤ ps := by
  rw [appendIf]
  split
  · simp
    omega
  · exact h

theorem appendIf_eq_append (ps : ℕ) (acc : List (List ℕ)) (g : List ℕ) :
    ∃ s, appendIf ps acc g = acc ++ s := by
  rw [appendIf]
  split
  · exact ⟨[g], rfl⟩
  · exact ⟨[], by simp⟩

theorem fill_children_spec (ps tsize L : ℕ) (pop : List (List ℕ))
    (nf : List ℚ) (o : Oracle) (hL : ∀ g ∈ pop, g.length = L)
    (ho : OracleOk o pop.length tsize) (ht : 1 ≤ tsize) :
    ∀ (m k : ℕ) (acc : List (List ℕ)), ps - acc.length = m →
      acc.length ≤ ps →
      ∃ tail, fill_children ps pop nf o k acc = .ok (acc ++ tail) ∧
        (acc ++ tail).length = ps := by
  intro m
  induction m using Nat.strong_induction_on with
  | _ m ih =>
    intro k acc hm hle
    rw [fill_children]
    split
    · next h =>
      obtain ⟨hs1len, _, hs1lt, hs2len, _, hs2lt⟩ := ho k
      have hs1ne : o.sample1 k ≠ [] := by
        intro hnil; rw [hnil] at hs1len; simp at hs1len; omega
      have hs2ne : o.sample2 k ≠ [] := by
        intro hnil; rw [hnil] at hs2len; simp at hs2len; omega
      have hp1 := select_parent_mem pop nf (o.sample1 k) hs1ne hs1lt
      have hp2 := select_parent_mem pop nf (o.sample2 k) hs2ne hs2lt
      have hlen : (select_parent pop nf (o.sample1 k)).length =
          (select_parent pop nf (o.sample2 k)).length := by
        rw [hL _ hp1, hL _ hp2]
      rw [crossover, if_neg (by omega)]
      dsimp only
      set c1 := mutate (o.mut1 k) ((select_parent pop nf (o.sample1 k)).take
        (min (o.points k).1 (o.points k).2) ++
        (((select_parent pop nf (o.sample2 k)).drop
          (min (o.points k).1 (o.points k).2)).take
          (max (o.points k).1 (o.points k).2 - min (o.points k).1 (o.points k).2)) ++
        (select_parent pop nf (o.sample1 k)).drop
          (max (o.points k).1 (o.points k).2)) with hc1
      set c2 := mutate (o.mut2 k) ((select_parent pop nf (o.sample2 k)).take
        (min (o.points k).1 (o.points k).2) ++
        (((select_parent pop nf (o.sample1 k)).drop
          (min (o.points k).1 (o.points k).2)).take
          (max (o.points k).1 (o.points k).2 - min (o.points k).1 (o.points k).2)) ++
        (select_parent pop nf (o.sample2 k)).drop
          (max (o.points k).1 (o.points k).2)) with hc2
      have hprog := appendIf_progress ps acc c1 c2 h
      have hle2 : (appendIf ps (appendIf ps acc c1) c2).length ≤ ps :=
        appendIf_length_le ps _ c2
          (appendIf_length_le ps acc c1 (le_of_lt h))
      obtain ⟨tail2, htail2, hlen2⟩ :=
        ih (ps - (appendIf ps (appendIf ps acc c1) c2).length)
          (by omega) (k + 1) (appendIf ps (appendIf ps acc c1) c2) rfl hle2
      obtain ⟨s1, hs1⟩ := appendIf_eq_append ps acc c1
      obtain ⟨s2, hs2⟩ := appendIf_eq_append ps (appendIf ps acc c1) c2
      refine ⟨s1 ++ s2 ++ tail2, ?_, ?_⟩
      · rw [htail2, hs2, hs1]
        simp
      · rw [← hlen2, hs2, hs1]
        simp
    · next h =>
      refine ⟨[], by simp, by simp; omega⟩

theorem pyMin_all_eq (l : List ℚ) (c : ℚ) (hne : l ≠ [])
    (hall : ∀ x ∈ l, x = c) : pyMin l = c := by
  cases hm : l.min? with
  | none => exact absurd (List.min?_eq_none_iff.mp hm) hne
  | some m =>
    have := List.min?_mem (α := ℚ) (fun a b => min_choice a b) hm
    rw [pyMin, hm]
    exact hall m this

theorem pyMax_all_eq (l : List ℚ) (c : ℚ) (hne : l ≠ [])
    (hall : ∀ x ∈ l, x = c) : pyMax l = c := by
  cases hm : l.max? with
  | none => exact absurd (List.max?_eq_none_iff.mp hm) hne
  | some m =>
    have := List.max?_mem (α := ℚ) (fun a b => max_choice a b) hm
    rw [pyMax, hm]
    exact hall m this

theorem normalize_fitness_uniform (fitness : List ℚ) (c : ℚ)
    (hne : fitness ≠ []) (hall : ∀ x ∈ fitness, x = c) :
    normalize_fitness fitness =
      List.replicate fitness.length (1 / (fitness.length : ℚ)) := by
  rw [normalize_fitness, if_neg]
  rw [pyMin_all_eq fitness c hne hall, pyMax_all_eq fitness c hne hall]
  simp

/-- C3: for every `evolve` call with a fitness list of length `N` equal to
the population size, `eliteSize ≤ N` and a positive `tournamentSize ≤ N`,
and for every sequence of random draws: the call succeeds, the new
population has exactly `N` members, the generation counter increases by
exactly 1, and the first `eliteSize` members are exactly the population
members at the indices of `rankDesc fitness` (which is a permutation of
`0..N-1` sorted by strictly descending fitness with ties broken by lower
index), copied unchanged. -/
theorem evolve_elitism (N E tsize L gen : ℕ) (pop : List (List ℕ))
    (fitness : List ℚ) (o : Oracle)
    (hpop : pop.length = N) (hfit : fitness.length = N)
    (hE : E ≤ N) (ht : 1 ≤ tsize) (hts : tsize ≤ N)
    (hL : ∀ g ∈ pop, g.length = L) (ho : OracleOk o N tsize) :
    ∃ p, evolve N E pop gen fitness o = .ok (p, gen + 1) ∧
      p.length = N ∧
      p.take E = ((rankDesc fitness).take E).map (fun idx => pop.getD idx []) ∧
      (rankDesc fitness).Perm (List.range N) ∧
      (rankDesc fitness).Pairwise (keyLT fitness) := by
  have hrankl : (rankDesc fitness).length = N := by
    rw [rankDesc_length, hfit]
  have helitel : (((rankDesc fitness).take E).map
      fun idx => pop.getD idx []).length = E := by
    simp [List.length_take, hrankl]
    omega
  obtain ⟨tail, htail, hlen⟩ := fill_children_spec N tsize L pop
    (normalize_fitness fitness) o hL (by rw [hpop]; exact ho) ht
    (N - (((rankDesc fitness).take E).map fun idx => pop.getD idx []).length)
    0 _ rfl (by rw [helitel]; exact hE)
  have hperm : (rankDesc fitness).Perm (List.range N) := by
    rw [← hfit]
    exact rankDesc_perm fitness
  refine ⟨_, ?_, hlen, ?_, hperm, rankDesc_pairwise fitness⟩
  · rw [evolve, htail]
  · exact List.take_left' helitel

/-- C10: for every `evolve` call whose fitness scores are all equal (list
length `N` = population size ≥ tournamentSize ≥ 1), the min-max
normalization branch is skipped in favour of the equal share `1/N` for
every member (so no division by `max - min = 0` occurs), and `evolve`
still succeeds with a complete next generation of exactly `N` genomes. -/
theorem evolve_uniform_fitness (N E tsize L gen : ℕ) (c : ℚ)
    (pop : List (List ℕ)) (fitness : List ℚ) (o : Oracle)
    (hpop : pop.length = N) (hfit : fitness.length = N) (hN : 1 ≤ N)
    (ht : 1 ≤ tsize) (hts : tsize ≤ N)
    (hall : ∀ x ∈ fitness, x = c)
    (hL : ∀ g ∈ pop, g.length = L) (ho : OracleOk o N tsize) :
    normalize_fitness fitness = List.replicate N (1 / (N : ℚ)) ∧
    ∃ p, evolve N E pop gen fitness o = .ok (p, gen + 1) ∧ p.length = N := by
  have hne : fitness ≠ [] := by
    intro hnil
    rw [hnil] at hfit
    simp at hfit
    omega
  have hnorm := normalize_fitness_uniform fitness c hne hall
  rw [hfit] at hnorm
  refine ⟨hnorm, ?_⟩
  have hrankl : (rankDesc fitness).length = N := by
    rw [rankDesc_length, hfit]
  have helitele : (((rankDesc fitness).take E).map
      fun idx => pop.getD idx []).length ≤ N := by
    simp [List.length_take, hrankl]
  obtain ⟨tail, htail, hlen⟩ := fill_children_spec N tsize L pop
    (normalize_fitness fitness) o hL (by rw [hpop]; exact ho) ht
    (N - (((rankDesc fitness).take E).map fun idx => pop.getD idx []).length)
    0 _ rfl helitele
  refine ⟨_, ?_, hlen⟩
  rw [evolve, htail]

/-- The population of the end-to-end scenario: 4 all-zero 180-bit genomes. -/
def demoPop : List (List ℕ) := List.replicate 4 (List.replicate 180 0)

/-- A concrete sequence of random draws: tournaments always sample indices
`[0, 1]` and `[2, 3]`, crossover points are 10 and 20, no mutation coin
ever fires. -/
def demoOracle : Oracle where
  sample1 _ := [0, 1]
  sample2 _ := [2, 3]
  points _ := (10, 20)
  mut1 _ := ⟨fun _ => false, fun _ => false, fun _ => false⟩
  mut2 _ := ⟨fun _ => false, fun _ => false, fun _ => false⟩

theorem demoOracleOk : OracleOk demoOracle 4 2 := by
  intro k
  exact ⟨rfl, (by decide : ([0, 1] : List ℕ).Nodup),
    (by decide : ∀ i ∈ ([0, 1] : List ℕ), i < 4), rfl,
    (by decide : ([2, 3] : List ℕ).Nodup),
    (by decide : ∀ i ∈ ([2, 3] : List ℕ), i < 4)⟩

theorem demoPop_length : ∀ g ∈ demoPop, g.length = 180 := by
  intro g hg
  rw [List.eq_of_mem_replicate hg, List.length_replicate]

/-- Witness for C3: the end-to-end scenario with population size 4,
genome length 180, all-zero genomes, eliteSize 1 and fitness scores
`[1, 2, 3, 4]`: one `evolve` succeeds with generation counter 1,
population size 4, and the genome of fitness 4 (index 3) kept unchanged
as the first member. -/
theorem evolve_elitism_witness :
    ∃ p, evolve 4 1 demoPop 0 [1, 2, 3, 4] demoOracle = .ok (p, 1) ∧
      p.length = 4 ∧ p.take 1 = [List.replicate 180 0] ∧
      List.replicate 180 0 ∈ p := by
  obtain ⟨p, h1, h2, h3, -, -⟩ := evolve_elitism 4 1 2 180 0 demoPop
    [1, 2, 3, 4] demoOracle (by simp [demoPop]) (by decide) (by decide)
    (by decide) (by decide) demoPop_length demoOracleOk
  have hrank : rankDesc [1, 2, 3, 4] = [3, 2, 1, 0] := by decide
  rw [hrank] at h3
  have hmap : (List.take 1 [3, 2, 1, 0]).map (fun idx => demoPop.getD idx [])
      = [List.replicate 180 0] := by
    simp [demoPop, List.getD]
  rw [hmap] at h3
  refine ⟨p, h1, h2, h3, ?_⟩
  have : List.replicate 180 0 ∈ p.take 1 := by
    rw [h3]
    exact List.mem_cons_self _ _
  exact List.take_subset 1 p this

/-- Witness for C10: four equal fitness scores `[5, 5, 5, 5]` on the
4-member population: normalization yields the equal share `1/4` for every
member and `evolve` still succeeds with a full new population of size 4. -/
theorem evolve_uniform_fitness_witness :
    normalize_fitness [5, 5, 5, 5] = List.replicate 4 (1 / (4 : ℚ)) ∧
    ∃ p, evolve 4 1 demoPop 0 [5, 5, 5, 5] demoOracle = .ok (p, 1) ∧
      p.length = 4 :=
  evolve_uniform_fitness 4 1 2 180 0 5 demoPop [5, 5, 5, 5] demoOracle
    (by simp [demoPop]) (by decide) (by decide) (by decide) (by decide)
    (by decide) demoPop_length demoOracleOk

/-! ## SimulationWorld (`src/environment.py`)

Python floats that can hold infinities (`best_distance`, the average
distance and the accumulated fitness) are modelled by `FVal`, rationals
extended with the IEEE-754 special values; machine arithmetic on them
follows the IEEE rules (`inf - finite = inf`, `inf + inf = inf`,
`inf - inf = nan`, comparisons with `nan` are false, ...).  Exact
rational arithmetic replaces binary-float rounding. -/

/-- A Python float: a finite (exact) rational, an infinity, or NaN. -/
inductive FVal where
  | fin : ℚ → FVal
  | posInf : FVal
  | negInf : FVal
  | nan : FVal
deriving DecidableEq, Repr

/-- IEEE-754 addition. -/
def FVal.add : FVal → FVal → FVal
  | nan, _ => nan
  | _, nan => nan
  | fin a, fin b => fin (a + b)
  | fin _, posInf => posInf
  | fin _, negInf => negInf
  | posInf, fin _ => posInf
  | posInf, posInf => posInf
  | posInf, negInf => nan
  | negInf, fin _ => negInf
  | negInf, posInf => nan
  | negInf, negInf => negInf

/-- IEEE-754 negation. -/
def FVal.neg : FVal → FVal
  | fin a => fin (-a)
  | posInf => negInf
  | negInf => posInf
  | nan => nan

/-- IEEE-754 subtraction, `a - b = a + (-b)`. -/
def FVal.sub (a b : FVal) : FVal := a.add b.neg

/-- IEEE-754 multiplication. -/
def FVal.mul : FVal → FVal → FVal
  | nan, _ => nan
  | _, nan => nan
  | fin a, fin b => fin (a * b)
  | fin a, posInf => if 0 < a then posInf else if a < 0 then negInf else nan
  | fin a, negInf => if 0 < a then negInf else if a < 0 then posInf else nan
  | posInf, fin b => if 0 < b then posInf else if b < 0 then negInf else nan
  | negInf, fin b => if 0 < b then negInf else if b < 0 then posInf else nan
  | posInf, posInf => posInf
  | posInf, negInf => negInf
  | negInf, posInf => negInf
  | negInf, negInf => posInf

/-- IEEE-754 strict comparison (`nan` compares false with everything). -/
def FVal.lt : FVal → FVal → Bool
  | nan, _ => false
  | _, nan => false
  | fin a, fin b => a < b
  | fin _, posInf => true
  | fin _, negInf => false
  | posInf, _ => false
  | negInf, negInf => false
  | negInf, _ => true

/-- An axis-aligned `pygame.Rect`: integer left/top corner and size. -/
structure Rect where
  left : ℤ
  top : ℤ
  w : ℤ
  h : ℤ
deriving DecidableEq, Repr

def Rect.right (r : Rect) : ℤ := r.left + r.w

def Rect.bottom (r : Rect) : ℤ := r.top + r.h

/-- `pygame.Rect.colliderect`: strict overlap test (rectangles sharing
only an edge do not collide). -/
def Rect.colliderect (a b : Rect) : Bool :=
  decide (a.left < b.right) && decide (a.right > b.left) &&
  decide (a.top < b.bottom) && decide (a.bottom > b.top)

/-- The external library functions consumed by the environment, abstracted:
`cosDeg θ` / `sinDeg θ` stand for `math.cos/sin(math.radians(θ))`,
`sqrtQ` for `math.sqrt`, and `rotSize θ` for the size of
`pygame.transform.rotate(rectangle_surf, -θ)` (the 44x30 car surface
rotated by `-θ` degrees).  All theorems quantify over every `Ext`. -/
structure Ext where
  cosDeg : ℤ → ℚ
  sinDeg : ℤ → ℚ
  sqrtQ : ℚ → ℚ
  rotSize : ℤ → ℕ × ℕ

/-- Environment constants from `Environment.__init__`:
window 800x600, `CAR_SIZE = 50 // 5 = 10`, `MAX_SPEED = 5 / 2`,
`MAX_SPEED_BACKWARD = MAX_SPEED / 2`, acceleration and deceleration
`0.05 / 2`, minimum turning speed `0.1`. -/
def WIDTH : ℤ := 800

def HEIGHT : ℤ := 600

def MAX_SPEED : ℚ := 5 / 2

def MAX_SPEED_BACKWARD : ℚ := 5 / 4

def ACCELERATION : ℚ := 1 / 40

def DECELERATION : ℚ := 1 / 40

def MIN_TURN_SPEED : ℚ := 1 / 10

/-- `pygame.Rect(600, 200, int(150 // 3 * 2 / 1.5), int(100 // 3 * 2 / 1.5))`
= `Rect(600, 200, 66, 44)`. -/
def parking_spot : Rect := ⟨600, 200, 66, 44⟩

/-- `int(10 // 3 * 2 / 1.5) = 4`. -/
def barrier_thickness : ℤ := 4

/-- The four boundary barriers of `Environment._create_barriers`. -/
def barriers : List Rect :=
  [⟨0, 0, WIDTH, barrier_thickness⟩,
   ⟨0, 0, barrier_thickness, HEIGHT⟩,
   ⟨0, HEIGHT - barrier_thickness, WIDTH, barrier_thickness⟩,
   ⟨WIDTH - barrier_thickness, 0, barrier_thickness, HEIGHT⟩]

def max_episode_steps : ℕ := 1000

/-- The mutable state of one `Environment` instance: the `current_state`
dict, the episode bookkeeping and the sensor / fitness caches. -/
structure EnvState where
  car_pos_x : ℚ
  car_pos_y : ℚ
  car_speed : ℚ
  rotation : ℤ
  collision_counter : ℕ
  time_elapsed : ℕ
  episode_finished : Bool
  current_step : ℕ
  best_distance : FVal
  current_fitness : FVal
  ray_distances : List ℕ
  average_distance : FVal
  distance_to_parking : Option ℚ
  rotated_collision_rect : Option Rect
  custom_rectangles : List Rect
deriving DecidableEq

/-- The freshly constructed environment (`Environment.__init__`): initial
pose (100, 300), zero speed and heading, `best_distance` and
`average_distance` at `float('inf')`, no collision rectangle yet. -/
def initEnv : EnvState where
  car_pos_x := 100
  car_pos_y := 300
  car_speed := 0
  rotation := 0
  collision_counter := 0
  time_elapsed := 0
  episode_finished := false
  current_step := 0
  best_distance := .posInf
  current_fitness := .fin 0
  ray_distances := List.replicate 8 0
  average_distance := .posInf
  distance_to_parking := none
  rotated_collision_rect := none
  custom_rectangles := []

/-- The observation dict returned by `Environment.get_state`. -/
structure Obs where
  sensors : List ℕ
  distance_to_parking : FVal
  collision : Bool
  position : ℚ × ℚ
  rotation : ℤ
  speed : ℚ
deriving DecidableEq

/-- The action dict `{'engine': e, 'wheels': w}`. -/
structure Action where
  engine : ℤ
  wheels : ℤ
deriving DecidableEq

/-- `Environment._point_inside_rect`: inclusive bounds. -/
def point_inside_rect (p : ℚ × ℚ) (r : Rect) : Bool :=
  decide ((r.left : ℚ) ≤ p.1) && decide (p.1 ≤ (r.right : ℚ)) &&
  decide ((r.top : ℚ) ≤ p.2) && decide (p.2 ≤ (r.bottom : ℚ))

/-- One ray sample point hits: inside some rectangle, or out of the
window bounds (the two cases return the same step index). -/
def ray_hit (rects : List Rect) (p : ℚ × ℚ) : Bool :=
  rects.any (point_inside_rect p) ||
  (decide (p.1 < 0) || decide (p.1 > (WIDTH : ℚ)) ||
   decide (p.2 < 0) || decide (p.2 > (HEIGHT : ℚ)))

/-- The ray-marching loop of `Environment._ray_distance`: advance one unit
step at a time, return the index of the first hit, or the maximum
distance after `maxD` steps. -/
def ray_go (rects : List Rect) (dx dy x y : ℚ) (maxD i : ℕ) : ℕ :=
  if i < maxD then
    if ray_hit rects (x + dx, y + dy) then i
    else ray_go rects dx dy (x + dx) (y + dy) maxD (i + 1)
  else maxD
termination_by maxD - i

/-- `Environment._ray_distance`. -/
def ray_distance (ext : Ext) (sx sy : ℚ) (angle : ℤ) (rects : List Rect)
    (maxD : ℕ) : ℕ :=
  ray_go rects (ext.cosDeg angle) (ext.sinDeg angle) sx sy maxD 0

/-- `Environment._nearest_point_on_rect`: clamp the point into the
rectangle. -/
def nearest_point_on_rect (r : Rect) (p : ℚ × ℚ) : ℚ × ℚ :=
  (max (r.left : ℚ) (min p.1 (r.right : ℚ)),
   max (r.top : ℚ) (min p.2 (r.bottom : ℚ)))

/-- `Environment._distance`: Euclidean distance through the abstracted
`math.sqrt`. -/
def dist (ext : Ext) (p q : ℚ × ℚ) : ℚ :=
  ext.sqrtQ ((p.1 - q.1) ^ 2 + (p.2 - q.2) ^ 2)

/-- `Environment._update_parking_distance` (environment.py lines 174-195):
no-op while the collision rectangle has never been computed; otherwise
refresh `distance_to_parking` (center distance) and `average_distance`
(mean of the four corner distances, always a finite float). -/
def update_parking_distance (ext : Ext) (s : EnvState) : EnvState :=
  match s.rotated_collision_rect with
  | none => s
  | some r =>
    let center : ℚ × ℚ := (((r.left + r.w / 2 : ℤ) : ℚ), ((r.top + r.h / 2 : ℤ) : ℚ))
    let corners : List (ℚ × ℚ) :=
      [((r.left : ℚ), (r.top : ℚ)), ((r.right : ℚ), (r.top : ℚ)),
       ((r.right : ℚ), (r.bottom : ℚ)), ((r.left : ℚ), (r.bottom : ℚ))]
    let corner_distances :=
      corners.map fun c => dist ext c (nearest_point_on_rect parking_spot c)
    { s with
      distance_to_parking := some (dist ext center (nearest_point_on_rect parking_spot center)),
      average_distance := .fin (corner_distances.sum / (corner_distances.length : ℚ)) }

/-- The fixed ray directions of `_update_sensors`. -/
def ray_angles : List ℤ := [0, 45, 90, 135, 180, 225, 270, 315]

/-- `Environment._update_sensors` (environment.py lines 124-146): cast the
8 rays (offset by the car's heading) against barriers plus custom
obstacles with range 150, then refresh the parking distances. -/
def update_sensors (ext : Ext) (s : EnvState) : EnvState :=
  update_parking_distance ext
    { s with ray_distances := ray_angles.map (fun a =>
        ray_distance ext s.car_pos_x s.car_pos_y (a + s.rotation)
          (barriers ++ s.custom_rectangles) 150) }

/-- `Environment.get_state`. -/
def get_state (s : EnvState) : Obs where
  sensors := s.ray_distances
  distance_to_parking := s.average_distance
  collision := decide (s.collision_counter > 0)
  position := (s.car_pos_x, s.car_pos_y)
  rotation := s.rotation
  speed := s.car_speed

/-- Python `int()` truncation (toward zero) of an exact rational. -/
def pyInt (q : ℚ) : ℤ := q.num / (q.den : ℤ)

/-- `surface.get_rect(center=(cx, cy))`: a rectangle of the given size
centered (with floor-division rounding) at the given point. -/
def mk_centered_rect (cx cy : ℤ) (wh : ℕ × ℕ) : Rect :=
  ⟨cx - (wh.1 : ℤ) / 2, cy - (wh.2 : ℤ) / 2, (wh.1 : ℤ), (wh.2 : ℤ)⟩

/-- The candidate position of `_update_position`: advance along the
heading at the current speed. -/
def candidate_pos (ext : Ext) (s : EnvState) : ℚ × ℚ :=
  (s.car_pos_x + s.car_speed * ext.cosDeg s.rotation,
   s.car_pos_y + s.car_speed * ext.sinDeg s.rotation)

/-- The car's rotated bounding rectangle at the candidate position:
`pygame.transform.rotate(rectangle_surf, -rotation).get_rect(center=car_rect.center)`,
the center being the truncated candidate coordinates. -/
def candidate_rect (ext : Ext) (s : EnvState) : Rect :=
  mk_centered_rect (pyInt (candidate_pos ext s).1) (pyInt (candidate_pos ext s).2)
    (ext.rotSize s.rotation)

/-- The screen-bounds part of `_check_collisions`. -/
def rect_out_of_bounds (r : Rect) : Bool :=
  decide (r.left < 0) || decide (r.right > WIDTH) ||
  decide (r.top < 0) || decide (r.bottom > HEIGHT)

/-- The full collision condition of `_check_collisions` (environment.py
lines 297-327): overlap with a boundary barrier, a custom obstacle, or
the screen bounds. -/
def collides (r : Rect) (customs : List Rect) : Bool :=
  barriers.any r.colliderect || customs.any r.colliderect || rect_out_of_bounds r

/-- `Environment._update_position` (environment.py lines 266-295): compute
the candidate position and the rotated collision rectangle there, run the
collision check (any hit zeroes the speed and increments the collision
counter exactly once), and commit the candidate position only when no
collision was detected and the speed is nonzero. -/
def update_position (ext : Ext) (s : EnvState) : EnvState :=
  let p := candidate_pos ext s
  let r := candidate_rect ext s
  let s1 := { s with rotated_collision_rect := some r }
  let s2 := if collides r s1.custom_rectangles then
      { s1 with car_speed := 0, collision_counter := s1.collision_counter + 1 }
    else s1
  if collides r s1.custom_rectangles = false ∧ s2.car_speed ≠ 0 then
    { s2 with car_pos_x := p.1, car_pos_y := p.2 }
  else s2

/-- The engine / steering part of `Environment._apply_action`
(environment.py lines 239-264): engine +1 accelerates toward `MAX_SPEED`,
engine -1 decelerates toward `-MAX_SPEED_BACKWARD`, anything else leaves
the speed; steering only takes effect at `|speed| >= MIN_TURN_SPEED` and
adds the wheel signal to the heading modulo 360. -/
def apply_engine_steering (a : Action) (s : EnvState) : EnvState :=
  let s1 :=
    if a.engine = 1 then
      { s with car_speed := min (s.car_speed + ACCELERATION) MAX_SPEED }
    else if a.engine = -1 then
      { s with car_speed := max (s.car_speed - DECELERATION) (-MAX_SPEED_BACKWARD) }
    else s
  if |s1.car_speed| ≥ MIN_TURN_SPEED then
    { s1 with rotation := (s1.rotation + a.wheels) % 360 }
  else s1

/-- `Environment._apply_action`: speed/heading update followed by the
position update. -/
def apply_action (ext : Ext) (a : Action) (s : EnvState) : EnvState :=
  update_position ext (apply_engine_steering a s)

/-- `Environment._is_parked_correctly` (environment.py lines 356-383):
needs a computed collision rectangle that collides with and is fully
contained in the parking spot, and a heading within 10 degrees of 0,
taking the minimum of the direct and the wrap-around (360) difference. -/
def is_parked_correctly (s : EnvState) : Bool :=
  match s.rotated_collision_rect with
  | none => false
  | some r =>
    parking_spot.colliderect r &&
    (decide (r.left ≥ parking_spot.left) && decide (r.right ≤ parking_spot.right) &&
     decide (r.top ≥ parking_spot.top) && decide (r.bottom ≤ parking_spot.bottom)) &&
    decide (min ((s.rotation % 360) - 0).natAbs ((s.rotation % 360) - (0 + 360)).natAbs ≤ 10)

/-- `Environment._calculate_reward` (environment.py lines 329-351):
-100 on collision, +(best - current) * 10 on a strict improvement of the
average distance (updating the best), +1000 when parked, -0.1 always;
the reward is also accumulated into the episode fitness. -/
def calculate_reward (s : EnvState) (obs : Obs) : EnvState × FVal :=
  let reward0 : FVal := .fin 0
  let reward1 := if obs.collision then reward0.sub (.fin 100) else reward0
  let reward2 := if obs.distance_to_parking.lt s.best_distance then
      reward1.add ((s.best_distance.sub obs.distance_to_parking).mul (.fin 10))
    else reward1
  let best := if obs.distance_to_parking.lt s.best_distance then
      obs.distance_to_parking
    else s.best_distance
  let reward3 := if is_parked_correctly s then reward2.add (.fin 1000) else reward2
  let reward := reward3.sub (.fin (1 / 10))
  ({ s with
      best_distance := best
      current_fitness := s.current_fitness.add reward }, reward)

/-- `Environment._check_episode_end` (environment.py lines 390-397):
collision, step-count exhaustion or a correct park finish the episode. -/
def check_episode_end (s : EnvState) (obs : Obs) : EnvState × Bool :=
  if obs.collision || decide (s.current_step ≥ max_episode_steps) ||
      is_parked_correctly s then
    ({ s with episode_finished := true }, true)
  else (s, false)

/-- The `(observation, reward, done, info)` quadruple of `step`. -/
structure StepResult where
  obs : Obs
  reward : FVal
  done : Bool
  info : List (String × ℚ)
deriving DecidableEq

/-- The state reached just before the reward computation of one `step`:
action applied, step counter incremented, sensors refreshed. -/
def step_core (ext : Ext) (a : Action) (s : EnvState) : EnvState :=
  update_sensors ext
    (let s1 := apply_action ext a s
     { s1 with current_step := s1.current_step + 1 })

/-- `Environment.step` (environment.py lines 209-237): a no-op returning
`(state, 0, True, {})` once the episode is finished; otherwise apply the
action, refresh the sensors, compute the reward and the termination
check, and return the new observation with the reward. -/
def step (ext : Ext) (a : Action) (s : EnvState) : EnvState × StepResult :=
  if s.episode_finished then (s, ⟨get_state s, .fin 0, true, []⟩)
  else
    match calculate_reward (step_core ext a s) (get_state (step_core ext a s)) with
    | (s3, reward) =>
      match check_episode_end s3 (get_state (step_core ext a s)) with
      | (s4, done) => (s4, ⟨get_state (step_core ext a s), reward, done, []⟩)

/-- `Environment.reset` (environment.py lines 89-97): restore the initial
pose and the episode bookkeeping (`best_distance = inf`, fitness 0),
refresh the sensors, return the observation. -/
def reset (ext : Ext) (s : EnvState) : EnvState × Obs :=
  let s1 := update_sensors ext
    { s with
      car_pos_x := 100, car_pos_y := 300, car_speed := 0, rotation := 0,
      collision_counter := 0, time_elapsed := 0,
      episode_finished := false, current_step := 0,
      best_distance := .posInf, current_fitness := .fin 0 }
  (s1, get_state s1)

/-- Run a list of actions from a state, threading the state through
`step`. -/
def run_steps (ext : Ext) (s : EnvState) : List Action → EnvState
  | [] => s
  | a :: rest => run_steps ext (step ext a s).1 rest

theorem FVal.add_fin_zero (x : FVal) : x.add (.fin 0) = x := by
  cases x <;> simp [FVal.add]

theorem FVal.fin_add_fin (a b : ℚ) : (FVal.fin a).add (.fin b) = .fin (a + b) := rfl

theorem FVal.sub_fin (x : FVal) (q : ℚ) : x.sub (.fin q) = x.add (.fin (-q)) := rfl

theorem FVal.lt_irrefl (x : FVal) : x.lt x = false := by
  cases x <;> simp [FVal.lt]

theorem FVal.lt_asymm (x y : FVal) (h : x.lt y = true) : y.lt x = false := by
  cases x <;> cases y <;> simp_all [FVal.lt] <;> linarith

/-- The new `best_distance` chosen by `_calculate_reward`. -/
def bestOf (s : EnvState) (obs : Obs) : FVal :=
  if obs.distance_to_parking.lt s.best_distance then obs.distance_to_parking
  else s.best_distance

/-- The per-step reward of `_calculate_reward`, written as the sequential
accumulation of the source. -/
def rewardOf (s : EnvState) (obs : Obs) : FVal :=
  ((if is_parked_correctly s then
      ((if obs.distance_to_parking.lt s.best_distance then
          (if obs.collision then (FVal.fin 0).sub (.fin 100) else (FVal.fin 0)).add
            ((s.best_distance.sub obs.distance_to_parking).mul (.fin 10))
        else (if obs.collision then (FVal.fin 0).sub (.fin 100) else (FVal.fin 0)))).add
        (.fin 1000)
    else
      (if obs.distance_to_parking.lt s.best_distance then
          (if obs.collision then (FVal.fin 0).sub (.fin 100) else (FVal.fin 0)).add
            ((s.best_distance.sub obs.distance_to_parking).mul (.fin 10))
        else (if obs.collision then (FVal.fin 0).sub (.fin 100) else (FVal.fin 0))))).sub
    (.fin (1 / 10))

theorem calculate_reward_def (s : EnvState) (obs : Obs) :
    calculate_reward s obs =
      ({ s with
          best_distance := bestOf s obs
          current_fitness := s.current_fitness.add (rewardOf s obs) },
        rewardOf s obs) := by
  by_cases h1 : obs.collision = true <;>
    by_cases h2 : obs.distance_to_parking.lt s.best_distance = true <;>
      by_cases h3 : is_parked_correctly s = true <;>
        simp [calculate_reward, bestOf, rewardOf, h1, h2, h3]

theorem check_episode_end_fst (s : EnvState) (obs : Obs) :
    (check_episode_end s obs).1.car_pos_x = s.car_pos_x ∧
    (check_episode_end s obs).1.car_pos_y = s.car_pos_y ∧
    (check_episode_end s obs).1.car_speed = s.car_speed ∧
    (check_episode_end s obs).1.rotation = s.rotation ∧
    (check_episode_end s obs).1.collision_counter = s.collision_counter ∧
    (check_episode_end s obs).1.current_step = s.current_step ∧
    (check_episode_end s obs).1.best_distance = s.best_distance ∧
    (check_episode_end s obs).1.current_fitness = s.current_fitness ∧
    (check_episode_end s obs).1.rotated_collision_rect = s.rotated_collision_rect ∧
    (check_episode_end s obs).1.custom_rectangles = s.custom_rectangles := by
  rw [check_episode_end]
  split <;> exact ⟨rfl, rfl, rfl, rfl, rfl, rfl, rfl, rfl, rfl, rfl⟩

theorem update_parking_distance_preserves (ext : Ext) (s : EnvState) :
    (update_parking_distance ext s).car_pos_x = s.car_pos_x ∧
    (update_parking_distance ext s).car_pos_y = s.car_pos_y ∧
    (update_parking_distance ext s).car_speed = s.car_speed ∧
    (update_parking_distance ext s).rotation = s.rotation ∧
    (update_parking_distance ext s).collision_counter = s.collision_counter ∧
    (update_parking_distance ext s).episode_finished = s.episode_finished ∧
    (update_parking_distance ext s).current_step = s.current_step ∧
    (update_parking_distance ext s).best_distance = s.best_distance ∧
    (update_parking_distance ext s).current_fitness = s.current_fitness ∧
    (update_parking_distance ext s).rotated_collision_rect = s.rotated_collision_rect ∧
    (update_parking_distance ext s).custom_rectangles = s.custom_rectangles := by
  cases hr : s.rotated_collision_rect with
  | none => simp [update_parking_distance, hr]
  | some r => simp [update_parking_distance, hr]

theorem update_parking_distance_avg_fin (ext : Ext) (s : EnvState) (r : Rect)
    (h : s.rotated_collision_rect = some r) :
    ∃ q, (update_parking_distance ext s).average_distance = .fin q := by
  rw [update_parking_distance, h]
  exact ⟨_, rfl⟩

theorem update_sensors_preserves (ext : Ext) (s : EnvState) :
    (update_sensors ext s).car_pos_x = s.car_pos_x ∧
    (update_sensors ext s).car_pos_y = s.car_pos_y ∧
    (update_sensors ext s).car_speed = s.car_speed ∧
    (update_sensors ext s).rotation = s.rotation ∧
    (update_sensors ext s).collision_counter = s.collision_counter ∧
    (update_sensors ext s).episode_finished = s.episode_finished ∧
    (update_sensors ext s).current_step = s.current_step ∧
    (update_sensors ext s).best_distance = s.best_distance ∧
    (update_sensors ext s).current_fitness = s.current_fitness ∧
    (update_sensors ext s).rotated_collision_rect = s.rotated_collision_rect ∧
    (update_sensors ext s).custom_rectangles = s.custom_rectangles := by
  rw [update_sensors]
  exact update_parking_distance_preserves ext _

theorem update_sensors_avg_fin (ext : Ext) (s : EnvState) (r : Rect)
    (h : s.rotated_collision_rect = some r) :
    ∃ q, (update_sensors ext s).average_distance = .fin q := by
  rw [update_sensors]
  exact update_parking_distance_avg_fin ext _ r h

theorem update_position_rect (ext : Ext) (s : EnvState) :
    (update_position ext s).rotated_collision_rect =
      some (candidate_rect ext s) := by
  rw [update_position]
  split
  · split <;> rfl
  · split <;> rfl

theorem update_position_preserves (ext : Ext) (s : EnvState) :
    (update_position ext s).rotation = s.rotation ∧
    (update_position ext s).episode_finished = s.episode_finished ∧
    (update_position ext s).current_step = s.current_step ∧
    (update_position ext s).best_distance = s.best_distance ∧
    (update_position ext s).current_fitness = s.current_fitness ∧
    (update_position ext s).average_distance = s.average_distance ∧
    (update_position ext s).custom_rectangles = s.custom_rectangles := by
  rw [update_position]
  split
  · split <;> exact ⟨rfl, rfl, rfl, rfl, rfl, rfl, rfl⟩
  · split <;> exact ⟨rfl, rfl, rfl, rfl, rfl, rfl, rfl⟩

theorem apply_engine_steering_preserves (a : Action) (s : EnvState) :
    (apply_engine_steering a s).car_pos_x = s.car_pos_x ∧
    (apply_engine_steering a s).car_pos_y = s.car_pos_y ∧
    (apply_engine_steering a s).collision_counter = s.collision_counter ∧
    (apply_engine_steering a s).episode_finished = s.episode_finished ∧
    (apply_engine_steering a s).current_step = s.current_step ∧
    (apply_engine_steering a s).best_distance = s.best_distance ∧
    (apply_engine_steering a s).current_fitness = s.current_fitness ∧
    (apply_engine_steering a s).rotated_collision_rect = s.rotated_collision_rect ∧
    (apply_engine_steering a s).custom_rectangles = s.custom_rectangles := by
  rw [apply_engine_steering]
  split <;> split <;> try split
  all_goals exact ⟨rfl, rfl, rfl, rfl, rfl, rfl, rfl, rfl, rfl⟩

theorem step_core_best (ext : Ext) (a : Action) (s : EnvState) :
    (step_core ext a s).best_distance = s.best_distance := by
  rw [step_core]
  rw [(update_sensors_preserves ext _).2.2.2.2.2.2.2.1]
  show (apply_action ext a s).best_distance = s.best_distance
  rw [apply_action, (update_position_preserves ext _).2.2.2.1]
  exact (apply_engine_steering_preserves a s).2.2.2.2.2.1

theorem step_core_fitness (ext : Ext) (a : Action) (s : EnvState) :
    (step_core ext a s).current_fitness = s.current_fitness := by
  rw [step_core]
  rw [(update_sensors_preserves ext _).2.2.2.2.2.2.2.2.1]
  show (apply_action ext a s).current_fitness = s.current_fitness
  rw [apply_action, (update_position_preserves ext _).2.2.2.2.1]
  exact (apply_engine_steering_preserves a s).2.2.2.2.2.2.1

theorem step_core_rect (ext : Ext) (a : Action) (s : EnvState) :
    (step_core ext a s).rotated_collision_rect =
      some (candidate_rect ext (apply_engine_steering a s)) := by
  rw [step_core]
  rw [(update_sensors_preserves ext _).2.2.2.2.2.2.2.2.2.1]
  show (apply_action ext a s).rotated_collision_rect = _
  rw [apply_action]
  exact update_position_rect ext _

theorem step_core_avg_fin (ext : Ext) (a : Action) (s : EnvState) :
    ∃ q, (step_core ext a s).average_distance = .fin q := by
  rw [step_core]
  refine update_sensors_avg_fin ext _
    (candidate_rect ext (apply_engine_steering a s)) ?_
  show (apply_action ext a s).rotated_collision_rect = _
  rw [apply_action]
  exact update_position_rect ext _

theorem step_not_finished (ext : Ext) (a : Action) (s : EnvState)
    (h : s.episode_finished = false) :
    step ext a s =
      ((check_episode_end
          (calculate_reward (step_core ext a s) (get_state (step_core ext a s))).1
          (get_state (step_core ext a s))).1,
        ⟨get_state (step_core ext a s),
          rewardOf (step_core ext a s) (get_state (step_core ext a s)),
          (check_episode_end
            (calculate_reward (step_core ext a s) (get_state (step_core ext a s))).1
            (get_state (step_core ext a s))).2, []⟩) := by
  rw [step, if_neg (by rw [h]; exact Bool.false_ne_true)]
  rw [calculate_reward_def]

theorem step_reward_formula_aux (ext : Ext) (a : Action) (s : EnvState)
    (h : s.episode_finished = false) :
    (step ext a s).2.reward =
      ((((if (get_state (step_core ext a s)).collision then FVal.fin (-100)
          else FVal.fin 0).add
        (if (get_state (step_core ext a s)).distance_to_parking.lt s.best_distance then
          (s.best_distance.sub (get_state (step_core ext a s)).distance_to_parking).mul
            (FVal.fin 10)
        else FVal.fin 0)).add
        (if is_parked_correctly (step_core ext a s) then FVal.fin 1000
          else FVal.fin 0)).add
        (FVal.fin (-(1 / 10)))) ∧
    (step ext a s).1.best_distance =
      (if (get_state (step_core ext a s)).distance_to_parking.lt s.best_distance then
        (get_state (step_core ext a s)).distance_to_parking
      else s.best_distance) ∧
    s.best_distance.lt (step ext a s).1.best_distance = false ∧
    (step ext a s).1.current_fitness =
      s.current_fitness.add ((step ext a s).2.reward) := by
  have hbest := step_core_best ext a s
  have hfit := step_core_fitness ext a s
  rw [step_not_finished ext a s h]
  dsimp only
  refine ⟨?_, ?_, ?_, ?_⟩
  · rw [rewardOf, hbest]
    by_cases h1 : (get_state (step_core ext a s)).collision = true <;>
      by_cases h2 : (get_state (step_core ext a s)).distance_to_parking.lt
        s.best_distance = true <;>
        by_cases h3 : is_parked_correctly (step_core ext a s) = true <;>
          simp [h1, h2, h3, FVal.sub_fin, FVal.add_fin_zero, FVal.fin_add_fin] <;>
            norm_num
  · rw [(check_episode_end_fst _ _).2.2.2.2.2.2.1]
    show bestOf (step_core ext a s) (get_state (step_core ext a s)) = _
    rw [bestOf, hbest]
  · rw [(check_episode_end_fst _ _).2.2.2.2.2.2.1]
    show s.best_distance.lt
      (bestOf (step_core ext a s) (get_state (step_core ext a s))) = false
    rw [bestOf, hbest]
    by_cases h2 : (get_state (step_core ext a s)).distance_to_parking.lt
        s.best_distance = true
    · rw [if_pos h2]
      exact FVal.lt_asymm _ _ h2
    · rw [if_neg h2]
      exact FVal.lt_irrefl _
  · rw [(check_episode_end_fst _ _).2.2.2.2.2.2.2.1]
    show (step_core ext a s).current_fitness.add
        (rewardOf (step_core ext a s) (get_state (step_core ext a s))) = _
    rw [hfit]

/-- C1: on every step taken in the Running state, the returned reward is
exactly the sum of: -100 if the collision counter is positive this step;
plus `(previous best - current average) * 10` exactly when the current
average distance is strictly below the episode best (the best tracker
being updated to the new value, so it never increases); plus 1000 if the
correct-parking predicate holds; plus the unconditional -0.1 — and the
same value is accumulated into the episode fitness. -/
theorem step_reward_formula (ext : Ext) (a : Action) (s : EnvState)
    (h : s.episode_finished = false) :
    (step ext a s).2.reward =
      ((((if (get_state (step_core ext a s)).collision then FVal.fin (-100)
          else FVal.fin 0).add
        (if (get_state (step_core ext a s)).distance_to_parking.lt s.best_distance then
          (s.best_distance.sub (get_state (step_core ext a s)).distance_to_parking).mul
            (FVal.fin 10)
        else FVal.fin 0)).add
        (if is_parked_correctly (step_core ext a s) then FVal.fin 1000
          else FVal.fin 0)).add
        (FVal.fin (-(1 / 10)))) ∧
    (step ext a s).1.best_distance =
      (if (get_state (step_core ext a s)).distance_to_parking.lt s.best_distance then
        (get_state (step_core ext a s)).distance_to_parking
      else s.best_distance) ∧
    s.best_distance.lt (step ext a s).1.best_distance = false ∧
    (step ext a s).1.current_fitness =
      s.current_fitness.add ((step ext a s).2.reward) :=
  step_reward_formula_aux ext a s h

theorem FVal.posInf_sub_fin (q : ℚ) : FVal.posInf.sub (.fin q) = .posInf := rfl

theorem FVal.fin_add_posInf (a : ℚ) : (FVal.fin a).add .posInf = .posInf := rfl

theorem FVal.posInf_add_fin (b : ℚ) : FVal.posInf.add (.fin b) = .posInf := rfl

theorem FVal.fin_lt_posInf (q : ℚ) : (FVal.fin q).lt .posInf = true := rfl

theorem get_state_dist (s : EnvState) :
    (get_state s).distance_to_parking = s.average_distance := rfl

/-- Shape of a step reward under a finite current average distance and a
best distance that is finite or `+inf`: the reward is finite or `+inf`
(never `-inf` or NaN). -/
theorem rewardOf_shape (s : EnvState) (obs : Obs) (q : ℚ)
    (hobs : obs.distance_to_parking = .fin q)
    (hbest : s.best_distance = .posInf ∨ ∃ p, s.best_distance = .fin p) :
    (∃ r, rewardOf s obs = .fin r) ∨ rewardOf s obs = .posInf := by
  rcases hbest with hb | ⟨p, hb⟩
  · by_cases h1 : obs.collision = true <;>
      by_cases h3 : is_parked_correctly s = true <;>
        simp [rewardOf, hb, hobs, h1, h3, FVal.lt, FVal.add, FVal.sub,
          FVal.neg, FVal.mul]
  · by_cases h1 : obs.collision = true <;>
      by_cases h2 : q < p <;>
        by_cases h3 : is_parked_correctly s = true <;>
          simp [rewardOf, hb, hobs, h1, h2, h3, FVal.lt, FVal.add, FVal.sub,
            FVal.neg, FVal.mul]

/-- The episode invariant behind C2: once the fitness has become `+inf`
(and the best distance is an honest non-NaN value) it stays `+inf`. -/
def fitnessInv (s : EnvState) : Prop :=
  s.current_fitness = .posInf ∧
  (s.best_distance = .posInf ∨ ∃ p, s.best_distance = .fin p)

theorem bestOf_shape (s : EnvState) (obs : Obs) (q : ℚ)
    (hobs : obs.distance_to_parking = .fin q)
    (hbest : s.best_distance = .posInf ∨ ∃ p, s.best_distance = .fin p) :
    bestOf s obs = .posInf ∨ ∃ p, bestOf s obs = .fin p := by
  rw [bestOf]
  split
  · exact Or.inr ⟨q, hobs⟩
  · exact hbest

theorem step_preserves_fitnessInv (ext : Ext) (a : Action) (s : EnvState)
    (hI : fitnessInv s) : fitnessInv (step ext a s).1 := by
  by_cases hfin : s.episode_finished = true
  · rw [step, if_pos hfin]
    exact hI
  · have hfin2 : s.episode_finished = false := by
      cases hsf : s.episode_finished
      · rfl
      · exact absurd hsf hfin
    rw [step_not_finished ext a s hfin2]
    dsimp only
    obtain ⟨q, hq⟩ := step_core_avg_fin ext a s
    have hobs : (get_state (step_core ext a s)).distance_to_parking = .fin q := by
      rw [get_state_dist, hq]
    have hbest2 : (step_core ext a s).best_distance = .posInf ∨
        ∃ p, (step_core ext a s).best_distance = .fin p := by
      rw [step_core_best]
      exact hI.2
    constructor
    · rw [(check_episode_end_fst _ _).2.2.2.2.2.2.2.1]
      show (step_core ext a s).current_fitness.add
        (rewardOf (step_core ext a s) (get_state (step_core ext a s))) = .posInf
      rw [step_core_fitness, hI.1]
      rcases rewardOf_shape (step_core ext a s) (get_state (step_core ext a s))
          q hobs hbest2 with ⟨r, hr⟩ | hr
      · rw [hr]
        exact FVal.posInf_add_fin r
      · rw [hr]
        rfl
    · rw [(check_episode_end_fst _ _).2.2.2.2.2.2.1]
      show bestOf (step_core ext a s) (get_state (step_core ext a s)) = .posInf ∨ _
      exact bestOf_shape (step_core ext a s) (get_state (step_core ext a s))
        q hobs hbest2

theorem reset_fields (ext : Ext) (s0 : EnvState) :
    (reset ext s0).1.best_distance = .posInf ∧
    (reset ext s0).1.current_fitness = .fin 0 ∧
    (reset ext s0).1.episode_finished = false := by
  rw [reset]
  dsimp only
  refine ⟨?_, ?_, ?_⟩
  · rw [(update_sensors_preserves _ _).2.2.2.2.2.2.2.1]
  · rw [(update_sensors_preserves _ _).2.2.2.2.2.2.2.2.1]
  · rw [(update_sensors_preserves _ _).2.2.2.2.2.1]

theorem first_step_posInf (ext : Ext) (a : Action) (s1 : EnvState)
    (hb : s1.best_distance = .posInf) (hf : s1.current_fitness = .fin 0)
    (he : s1.episode_finished = false) :
    (step ext a s1).2.reward = .posInf ∧ fitnessInv (step ext a s1).1 := by
  obtain ⟨q, hq⟩ := step_core_avg_fin ext a s1
  have hobs : (get_state (step_core ext a s1)).distance_to_parking = .fin q := by
    rw [get_state_dist, hq]
  have hfor := step_reward_formula_aux ext a s1 he
  have hm : FVal.posInf.mul (.fin 10) = .posInf := by
    simp [FVal.mul]
  have hreward : (step ext a s1).2.reward = .posInf := by
    rw [hfor.1, hobs, hb, if_pos (FVal.fin_lt_posInf q), FVal.posInf_sub_fin, hm]
    by_cases h1 : (get_state (step_core ext a s1)).collision = true <;>
      by_cases h3 : is_parked_correctly (step_core ext a s1) = true <;>
        simp [h1, h3, FVal.fin_add_posInf, FVal.posInf_add_fin, FVal.sub,
          FVal.add, FVal.neg]
  refine ⟨hreward, ?_, ?_⟩
  · rw [hfor.2.2.2, hf, hreward]
    rfl
  · rw [hfor.2.1, hobs, hb, if_pos (FVal.fin_lt_posInf q)]
    exact Or.inr ⟨q, rfl⟩

theorem run_steps_fitnessInv (ext : Ext) :
    ∀ (acts : List Action) (s : EnvState), fitnessInv s →
      fitnessInv (run_steps ext s acts) := by
  intro acts
  induction acts with
  | nil => intro s hI; exact hI
  | cons a rest ih =>
    intro s hI
    exact ih _ (step_preserves_fitnessInv ext a s hI)

/-- C2: `reset` re-initializes the best-distance tracker to `+inf` (and,
for a freshly constructed environment, the reported average distance is
`+inf` and the collision rectangle is still uncomputed); consequently,
for every external geometry, every starting state and every nonempty
action sequence, the first step's reward — whose shaping term is
`(inf - finite average) * 10` — is `+inf`, and the accumulated episode
fitness after any number of further steps is `+inf` rather than a finite
float. -/
theorem reset_first_step_infinite_fitness (ext : Ext) (s0 : EnvState)
    (a : Action) (acts : List Action) :
    (reset ext s0).1.best_distance = .posInf ∧
    (reset ext initEnv).1.average_distance = .posInf ∧
    (reset ext initEnv).1.rotated_collision_rect = none ∧
    (step ext a (reset ext s0).1).2.reward = .posInf ∧
    (run_steps ext (reset ext s0).1 (a :: acts)).current_fitness = .posInf := by
  obtain ⟨hb, hf, he⟩ := reset_fields ext s0
  obtain ⟨hreward, hInv⟩ := first_step_posInf ext a (reset ext s0).1 hb hf he
  refine ⟨hb, rfl, rfl, hreward, ?_⟩
  exact (run_steps_fitnessInv ext acts _ hInv).1

theorem update_position_collision (ext : Ext) (s : EnvState) :
    (collides (candidate_rect ext s) s.custom_rectangles = true →
      (update_position ext s).car_speed = 0 ∧
      (update_position ext s).collision_counter = s.collision_counter + 1 ∧
      (update_position ext s).car_pos_x = s.car_pos_x ∧
      (update_position ext s).car_pos_y = s.car_pos_y) ∧
    (collides (candidate_rect ext s) s.custom_rectangles = false →
      s.car_speed ≠ 0 →
      (update_position ext s).car_pos_x = (candidate_pos ext s).1 ∧
      (update_position ext s).car_pos_y = (candidate_pos ext s).2 ∧
      (update_position ext s).collision_counter = s.collision_counter ∧
      (update_position ext s).car_speed = s.car_speed) := by
  constructor
  · intro hc
    simp [update_position, hc]
  · intro hc hs
    simp [update_position, hc, hs]

theorem step_car_fields (ext : Ext) (a : Action) (s : EnvState)
    (h : s.episode_finished = false) :
    (step ext a s).1.car_pos_x = (apply_action ext a s).car_pos_x ∧
    (step ext a s).1.car_pos_y = (apply_action ext a s).car_pos_y ∧
    (step ext a s).1.car_speed = (apply_action ext a s).car_speed ∧
    (step ext a s).1.collision_counter = (apply_action ext a s).collision_counter := by
  rw [step_not_finished ext a s h]
  dsimp only
  refine ⟨?_, ?_, ?_, ?_⟩
  · rw [(check_episode_end_fst _ _).1]
    show (step_core ext a s).car_pos_x = _
    rw [step_core, (update_sensors_preserves _ _).1]
  · rw [(check_episode_end_fst _ _).2.1]
    show (step_core ext a s).car_pos_y = _
    rw [step_core, (update_sensors_preserves _ _).2.1]
  · rw [(check_episode_end_fst _ _).2.2.1]
    show (step_core ext a s).car_speed = _
    rw [step_core, (update_sensors_preserves _ _).2.2.1]
  · rw [(check_episode_end_fst _ _).2.2.2.2.1]
    show (step_core ext a s).collision_counter = _
    rw [step_core, (update_sensors_preserves _ _).2.2.2.2.1]

/-- C7: for every step taken in the Running state whose rotated bounding
rectangle at the candidate position overlaps a boundary barrier, a
registered obstacle or the arena edges, the step zeroes the car's speed,
increments the collision counter by exactly 1, and leaves the stored
position exactly unchanged; with no overlap and nonzero speed, the
candidate position is committed (and the counter and speed are
untouched). -/
theorem step_collision_effects (ext : Ext) (a : Action) (s : EnvState)
    (h : s.episode_finished = false) :
    (collides (candidate_rect ext (apply_engine_steering a s))
        (apply_engine_steering a s).custom_rectangles = true →
      (step ext a s).1.car_speed = 0 ∧
      (step ext a s).1.collision_counter = s.collision_counter + 1 ∧
      (step ext a s).1.car_pos_x = s.car_pos_x ∧
      (step ext a s).1.car_pos_y = s.car_pos_y) ∧
    (collides (candidate_rect ext (apply_engine_steering a s))
        (apply_engine_steering a s).custom_rectangles = false →
      (apply_engine_steering a s).car_speed ≠ 0 →
      (step ext a s).1.car_pos_x =
        (candidate_pos ext (apply_engine_steering a s)).1 ∧
      (step ext a s).1.car_pos_y =
        (candidate_pos ext (apply_engine_steering a s)).2 ∧
      (step ext a s).1.collision_counter = s.collision_counter ∧
      (step ext a s).1.car_speed = (apply_engine_steering a s).car_speed) := by
  obtain ⟨hx, hy, hv, hn⟩ := step_car_fields ext a s h
  obtain ⟨hes_x, hes_y, hes_n, -⟩ :=
    (fun p => ⟨p.1, p.2.1, p.2.2.1, p.2.2.2.1⟩ :
      _ → (apply_engine_steering a s).car_pos_x = s.car_pos_x ∧
        (apply_engine_steering a s).car_pos_y = s.car_pos_y ∧
        (apply_engine_steering a s).collision_counter = s.collision_counter ∧
        (apply_engine_steering a s).episode_finished = s.episode_finished)
      (apply_engine_steering_preserves a s)
  obtain ⟨hcol, hfree⟩ := update_position_collision ext (apply_engine_steering a s)
  constructor
  · intro hc
    obtain ⟨h1, h2, h3, h4⟩ := hcol hc
    rw [apply_action] at hx hy hv hn
    refine ⟨?_, ?_, ?_, ?_⟩
    · rw [hv, h1]
    · rw [hn, h2, hes_n]
    · rw [hx, h3, hes_x]
    · rw [hy, h4, hes_y]
  · intro hc hs
    obtain ⟨h1, h2, h3, h4⟩ := hfree hc hs
    rw [apply_action] at hx hy hv hn
    refine ⟨?_, ?_, ?_, ?_⟩
    · rw [hx, h1]
    · rw [hy, h2]
    · rw [hn, h3, hes_n]
    · rw [hv, h4]

/-- C8: once the episode is Finished, every subsequent `step` returns the
unchanged current observation with reward 0, done, and an empty info
dict, and modifies no simulation state; repeating any number of steps
still leaves the state untouched. -/
theorem step_idempotent_after_finished (ext : Ext) (a : Action)
    (s : EnvState) (acts : List Action) (h : s.episode_finished = true) :
    step ext a s = (s, ⟨get_state s, .fin 0, true, []⟩) ∧
    run_steps ext s acts = s := by
  have hstep : ∀ b : Action, step ext b s = (s, ⟨get_state s, .fin 0, true, []⟩) := by
    intro b
    rw [step, if_pos h]
  refine ⟨hstep a, ?_⟩
  induction acts with
  | nil => rfl
  | cons b rest ih =>
    show run_steps ext (step ext b s).1 rest = s
    rw [hstep b]
    exact ih

/-- C9: with a computed collision rectangle of positive size, the
correct-parking predicate holds iff the rectangle is fully contained in
the parking target (all four sides within) and the heading deviation
from 0 degrees, the minimum of the direct and the 360-wrap-around
difference, is at most 10 degrees. -/
theorem is_parked_correctly_iff (s : EnvState) (r : Rect)
    (hr : s.rotated_collision_rect = some r) (hw : 0 < r.w) (hh : 0 < r.h) :
    (is_parked_correctly s = true ↔
      (parking_spot.left ≤ r.left ∧ r.right ≤ parking_spot.right ∧
        parking_spot.top ≤ r.top ∧ r.bottom ≤ parking_spot.bottom) ∧
      min ((s.rotation % 360) - 0).natAbs
        ((s.rotation % 360) - (0 + 360)).natAbs ≤ 10) := by
  simp only [is_parked_correctly, hr, Rect.colliderect, Rect.right, Rect.bottom,
    parking_spot, Bool.and_eq_true, decide_eq_true_eq]
  omega

/-- A concrete external geometry: heading vector (1, 0), identity square
root, constant 44x30 rotated bounding box. -/
def extTrivial : Ext where
  cosDeg _ := 1
  sinDeg _ := 0
  sqrtQ q := q
  rotSize _ := (44, 30)

/-- Witness for C1 at the initial state with a full-throttle action. -/
theorem step_reward_formula_witness :
    (step extTrivial ⟨1, 0⟩ initEnv).1.current_fitness =
      initEnv.current_fitness.add ((step extTrivial ⟨1, 0⟩ initEnv).2.reward) ∧
    initEnv.best_distance.lt ((step extTrivial ⟨1, 0⟩ initEnv).1.best_distance) = false := by
  have h := step_reward_formula extTrivial ⟨1, 0⟩ initEnv rfl
  exact ⟨h.2.2.2, h.2.2.1⟩

/-- A car parked just left of the left barrier: its 44x30 box sticks out
of the arena, so the next step collides. -/
def sNear : EnvState := { initEnv with car_pos_x := 20 }

/-- A car in the middle of the arena moving at speed 1: no overlap. -/
def sFree : EnvState := { initEnv with car_pos_x := 400, car_speed := 1 }

theorem sNear_steer : apply_engine_steering ⟨0, 0⟩ sNear = sNear := by
  norm_num [apply_engine_steering, sNear, initEnv, MIN_TURN_SPEED]

theorem sFree_steer : apply_engine_steering ⟨0, 0⟩ sFree = sFree := by
  norm_num [apply_engine_steering, sFree, initEnv, MIN_TURN_SPEED]

theorem sNear_cand : candidate_pos extTrivial sNear = (20, 300) := by
  norm_num [candidate_pos, sNear, initEnv, extTrivial]

theorem sNear_rect : candidate_rect extTrivial sNear = ⟨-2, 285, 44, 30⟩ := by
  rw [candidate_rect, sNear_cand]
  decide

theorem sFree_cand : candidate_pos extTrivial sFree = (401, 300) := by
  norm_num [candidate_pos, sFree, initEnv, extTrivial]

theorem sFree_rect : candidate_rect extTrivial sFree = ⟨379, 285, 44, 30⟩ := by
  rw [candidate_rect, sFree_cand]
  decide

/-- Witness for C7: near the left barrier the step zeroes the speed,
counts exactly one collision and keeps the position; in free space with
nonzero speed the candidate position is committed. -/
theorem step_collision_effects_witness :
    ((step extTrivial ⟨0, 0⟩ sNear).1.car_speed = 0 ∧
      (step extTrivial ⟨0, 0⟩ sNear).1.collision_counter =
        sNear.collision_counter + 1 ∧
      (step extTrivial ⟨0, 0⟩ sNear).1.car_pos_x = sNear.car_pos_x) ∧
    ((step extTrivial ⟨0, 0⟩ sFree).1.car_pos_x =
        (candidate_pos extTrivial sFree).1 ∧
      (step extTrivial ⟨0, 0⟩ sFree).1.car_pos_y =
        (candidate_pos extTrivial sFree).2) := by
  have h1 := (step_collision_effects extTrivial ⟨0, 0⟩ sNear rfl).1
    (by rw [sNear_steer, sNear_rect]; decide)
  have h2 := (step_collision_effects extTrivial ⟨0, 0⟩ sFree rfl).2
    (by rw [sFree_steer, sFree_rect]; decide) (by rw [sFree_steer]; decide)
  refine ⟨⟨h1.1, h1.2.1, h1.2.2.1⟩, ?_, ?_⟩
  · rw [h2.1, sFree_steer]
  · rw [h2.2.1, sFree_steer]

/-- A state whose episode has already terminated. -/
def sDone : EnvState := { initEnv with episode_finished := true }

/-- Witness for C8 at a finished state. -/
theorem step_idempotent_after_finished_witness :
    step extTrivial ⟨1, -1⟩ sDone = (sDone, ⟨get_state sDone, .fin 0, true, []⟩) ∧
    run_steps extTrivial sDone [⟨1, 0⟩, ⟨-1, 1⟩] = sDone :=
  step_idempotent_after_finished extTrivial ⟨1, -1⟩ sDone [⟨1, 0⟩, ⟨-1, 1⟩] rfl

/-- A car rectangle fully inside the parking target, heading 0. -/
def sParked : EnvState :=
  { initEnv with rotated_collision_rect := some ⟨610, 210, 44, 30⟩ }

/-- The same rectangle but heading 15 degrees. -/
def sTurned : EnvState :=
  { initEnv with rotated_collision_rect := some ⟨610, 210, 44, 30⟩, rotation := 15 }

/-- Witness for C9: the fully contained rectangle is parked at heading 0
but not at heading 15 (beyond the 10-degree tolerance). -/
theorem is_parked_correctly_iff_witness :
    is_parked_correctly sParked = true ∧ is_parked_correctly sTurned = false := by
  have h1 := is_parked_correctly_iff sParked ⟨610, 210, 44, 30⟩ rfl
    (by decide) (by decide)
  have h2 := is_parked_correctly_iff sTurned ⟨610, 210, 44, 30⟩ rfl
    (by decide) (by decide)
  constructor
  · exact h1.mpr (by decide)
  · cases hb : is_parked_correctly sTurned
    · rfl
    · exact absurd (h2.mp hb) (by decide)
